import Mathlib

/-!
# The list-selection dialog of `common/displlst.cpp`

A shallow embedding of `EDA_LIST_DIALOG`: the dialog is a record of the widgets it owns,
every member function is a function on that record, and reads that C++ leaves undefined
(past the end of `DEFAULT_COL_WIDTHS`, past the end of a `wxArrayString`) surface as a `Fault`.

Conventions.
* A `wxString` is a `String`; a `wxArrayString` and a `std::vector` are lists.
* The string and sorting services of the widget toolkit (`wxString::MakeLower`,
  `wxString::Matches`, `wxListCtrl::SortItems`) are not part of this source; they are the
  fields of a `wxWidgets` record over which every definition is parametric.
* The storage side of the list control (columns, lines, cells, item data, selection flag)
  is a small container model, `wxListCtrl`.
* The item data word of a line is a pointer to a key string of the caller's table; the table
  is read-only while the dialog lives, so the pointer is represented by the string it points
  at (`none` is the null pointer).
* `unsigned` index variables range over container sizes and are natural numbers; conversions
  from `int` to `unsigned` are written out with `% 2 ^ 32`.
-/

namespace Displlst

/-! ## Faults -/

/-- An out-of-range read. C++ gives such a read no defined result. -/
inductive Fault where
  /-- `DEFAULT_COL_WIDTHS[ i ]` with `i` past the two entries of the table. -/
  | colWidths (i : Nat)
  /-- `wxArrayString::Item( i )` or `operator[]( i )` with `i` past the last cell. -/
  | cell (i : Nat)
  /-- `std::vector::operator[]( i )` with `i` past the last row. -/
  | row (i : Nat)
  deriving DecidableEq, Repr

/-- `for( unsigned i = lo; i < hi; i++ ) body` over a state `σ`; the body may fault. -/
def forLoop {σ : Type} (lo hi : Nat) (body : Nat → σ → Except Fault σ) (s : σ) :
    Except Fault σ :=
  (List.range' lo (hi - lo)).foldlM (fun acc i => body i acc) s

/-- A counting loop whose body may `break`: the body returns the new state and whether it
broke out; `is` lists the values the loop variable still has to take. -/
def forBreak {σ : Type} (body : Nat → σ → Except Fault (σ × Bool)) :
    List Nat → σ → Except Fault σ
  | [], s => pure s
  | i :: is, s =>
    match body i s with
    | .error e => .error e
    | .ok (s1, true) => pure s1
    | .ok (s1, false) => forBreak body is s1

/-! ## Strings, arrays, constants -/

abbrev wxArrayString := List String

def wxEmptyString : String := ""

/-- `wxArrayString::Item( i )` / `operator[]( i )`. -/
def wxArrayString.Item (a : wxArrayString) (i : Nat) : Except Fault String :=
  match a[i]? with
  | some s => pure s
  | none => throw (Fault.cell i)

/-- `std::vector< wxArrayString >::operator[]( i )`. -/
def vectorAt (v : List wxArrayString) (i : Nat) : Except Fault wxArrayString :=
  match v[i]? with
  | some r => pure r
  | none => throw (Fault.row i)

/-- `static int DEFAULT_COL_WIDTHS[] = \x7b 400, 200 \x7d;` -/
def DEFAULT_COL_WIDTHS : List Int := [400, 200]

/-- The read `DEFAULT_COL_WIDTHS[ i ]`. -/
def DEFAULT_COL_WIDTHS_at (i : Nat) : Except Fault Int :=
  match DEFAULT_COL_WIDTHS[i]? with
  | some w => pure w
  | none => throw (Fault.colWidths i)

/-- The conversion `unsigned( x )` of an `int`. -/
def unsigned (x : Int) : Nat := (x % 2 ^ 32).toNat

def wxID_OK : Int := 5100
def wxID_CANCEL : Int := 5101

def wxLIST_MASK_TEXT : Nat := 0x0002
def wxLIST_MASK_DATA : Nat := 0x0008
def wxLIST_MASK_WIDTH : Nat := 0x0020

/-! ## The list control -/

/-- The item data word (`wxUIntPtr`): a pointer to a key string, represented by its pointee. -/
abbrev wxUIntPtr := Option String

/-- The request record `wxListItem` that `InsertItem`, `SetItem` and `GetItem` exchange. -/
structure wxListItem where
  m_mask : Nat := 0
  m_itemId : Int := -1
  m_col : Int := 0
  m_text : String := ""
  m_width : Int := 0
  m_data : wxUIntPtr := none
  deriving DecidableEq, Repr

/-- One stored line of the control: a text per column, the item data, the selection flag. -/
structure wxListLine where
  cells : List String
  data : wxUIntPtr
  selected : Bool
  deriving DecidableEq, Repr

/-- The list control in report mode: its columns (header, width) and its lines, top down. -/
structure wxListCtrl where
  columns : List (String × Int)
  items : List wxListLine
  deriving DecidableEq, Repr

/-- Whether bit set `mask` contains the (single-bit) flag `flag`. -/
def hasMask (mask flag : Nat) : Bool := mask &&& flag != 0

/-- Store `text` in cell `col`; a column the line does not have is ignored. -/
def setCell (cells : List String) (col : Int) (text : String) : List String :=
  if 0 ≤ col then cells.set col.toNat text else cells

/-- Apply the fields selected by the mask of `info` to a stored line. -/
def wxListLine.apply (info : wxListItem) (line : wxListLine) : wxListLine :=
  { cells := if hasMask info.m_mask wxLIST_MASK_TEXT then setCell line.cells info.m_col info.m_text
             else line.cells
    data := if hasMask info.m_mask wxLIST_MASK_DATA then info.m_data else line.data
    selected := line.selected }

/-- Rewrite line `i`, when there is one. -/
def updateLine (f : wxListLine → wxListLine) : Nat → List wxListLine → List wxListLine
  | _, [] => []
  | 0, x :: xs => f x :: xs
  | i + 1, x :: xs => x :: updateLine f i xs

/-- Index of the first selected line, if any. -/
def firstSelected : List wxListLine → Option Nat
  | [] => none
  | x :: xs => if x.selected then some 0 else (firstSelected xs).map (· + 1)

/-- The line with its selection flag cleared. -/
def wxListLine.unselect (line : wxListLine) : wxListLine := { line with selected := false }

/-- A new line for a control with `n` columns: empty cells, null data word, not selected. -/
def freshLine (n : Nat) : wxListLine :=
  { cells := List.replicate n "", data := none, selected := false }

namespace wxListCtrl

def GetColumnCount (lb : wxListCtrl) : Int := lb.columns.length

def GetItemCount (lb : wxListCtrl) : Int := lb.items.length

/-- `InsertColumn( col, heading, format, width )`: every stored line gets an empty cell. -/
def InsertColumn (lb : wxListCtrl) (col : Nat) (heading : String) (width : Int) : wxListCtrl :=
  { columns := lb.columns.take col ++ (heading, width) :: lb.columns.drop col
    items := lb.items.map fun line =>
      { line with cells := line.cells.take col ++ "" :: line.cells.drop col } }

/-- `InsertItem( info )`: a new, unselected line before position `info.m_itemId` (at the end
when that is past the last line); returns the control and the index of the new line, or `-1`
for a negative position. -/
def InsertItem (lb : wxListCtrl) (info : wxListItem) : wxListCtrl × Int :=
  if info.m_itemId < 0 then (lb, -1)
  else
    let id := min info.m_itemId.toNat lb.items.length
    let fresh := freshLine lb.columns.length
    ({ lb with items := lb.items.take id ++ fresh.apply info :: lb.items.drop id }, id)

/-- `InsertItem( index, label )`. -/
def InsertItemLabel (lb : wxListCtrl) (index : Int) (label : String) : wxListCtrl × Int :=
  lb.InsertItem { m_mask := wxLIST_MASK_TEXT, m_itemId := index, m_text := label }

/-- `SetItem( info )`. -/
def SetItem (lb : wxListCtrl) (info : wxListItem) : wxListCtrl :=
  if 0 ≤ info.m_itemId then
    { lb with items := updateLine (wxListLine.apply info) info.m_itemId.toNat lb.items }
  else lb

/-- `SetItem( index, col, label )`. -/
def SetItemLabel (lb : wxListCtrl) (index : Int) (col : Int) (label : String) : wxListCtrl :=
  lb.SetItem { m_mask := wxLIST_MASK_TEXT, m_itemId := index, m_col := col, m_text := label }

/-- `SetItemPtrData( item, data )`. -/
def SetItemPtrData (lb : wxListCtrl) (item : Int) (data : wxUIntPtr) : wxListCtrl :=
  lb.SetItem { m_mask := wxLIST_MASK_DATA, m_itemId := item, m_data := data }

def DeleteAllItems (lb : wxListCtrl) : wxListCtrl := { lb with items := [] }

/-- `SetItemState( item, wxLIST_STATE_SELECTED, wxLIST_STATE_SELECTED )`. -/
def SetItemStateSelected (lb : wxListCtrl) (item : Nat) : wxListCtrl :=
  { lb with items := updateLine (fun line => { line with selected := true }) item lb.items }

/-- `EnsureVisible( item )` scrolls; the scroll position is not part of the model. -/
def EnsureVisible (lb : wxListCtrl) (_item : Nat) : wxListCtrl := lb

/-- `GetNextItem( item, wxLIST_NEXT_ALL, wxLIST_STATE_SELECTED )`: the first selected line
strictly after `item`, or `-1`. -/
def GetNextItem (lb : wxListCtrl) (item : Int) : Int :=
  let start := (item + 1).toNat
  match firstSelected (lb.items.drop start) with
  | some i => start + i
  | none => -1

/-- `GetItem( info )` with mask `wxLIST_MASK_TEXT`: fills in the text of cell `info.m_col` of
line `info.m_itemId`; `none` is the C++ result `false` (no such line). -/
def GetItem (lb : wxListCtrl) (info : wxListItem) : Option wxListItem :=
  if info.m_itemId < 0 then none
  else
    match lb.items[info.m_itemId.toNat]? with
    | none => none
    | some line =>
      some { info with
        m_text := if 0 ≤ info.m_col then line.cells.getD info.m_col.toNat "" else "" }

end wxListCtrl

/-! ## The toolkit services the dialog is parametric in -/

/-- The services of the widget toolkit whose code is outside this source. -/
structure wxWidgets where
  /-- `wxString::MakeLower`. -/
  MakeLower : String → String
  /-- `text.Matches( mask )`, wildcard matching with `*` and `?`. -/
  Matches : String → String → Bool
  /-- `wxListCtrl::SortItems( fn, data )` on the stored lines; `fn` receives the item data
  words of two lines (the sort data word is already supplied to it). -/
  SortItems : (wxUIntPtr → wxUIntPtr → Int) → List wxListLine → List wxListLine

/-- What a comparison callback has to be for sorting to make sense: any two keys are
comparable and the order is transitive. -/
structure IsOrdering (cmp : wxUIntPtr → wxUIntPtr → Int) : Prop where
  total : ∀ a b, cmp a b ≤ 0 ∨ cmp b a ≤ 0
  trans : ∀ a b c, cmp a b ≤ 0 → cmp b c ≤ 0 → cmp a c ≤ 0

/-- The documented effect of `SortItems`: the lines are rearranged (cells and data word travel
with the line), sorting selects nothing (a line's selection flag is kept or, as in the generic
control, cleared), and with a callback that is an ordering no line is followed by one that
compares smaller. Nothing is promised about lines that compare equal. -/
structure SortItemsContract (wx : wxWidgets) : Prop where
  perm : ∀ cmp l,
    ((wx.SortItems cmp l).map wxListLine.unselect).Perm (l.map wxListLine.unselect)
  selects_nothing : ∀ cmp l, ∀ x ∈ wx.SortItems cmp l, x.selected = true → x ∈ l
  sorted : ∀ cmp, IsOrdering cmp → ∀ l,
    (wx.SortItems cmp l).Pairwise (fun a b => cmp a.data b.data ≤ 0)

/-! ## The comparison helper -/

/-- Locale-agnostic case folding of one character: the letters `a`..`z` take the code of
their capital, every other character keeps its code. -/
def foldCase (c : Char) : Nat :=
  if 97 ≤ c.toNat ∧ c.toNat ≤ 122 then c.toNat - 32 else c.toNat

/-- The value of a decimal digit character. -/
def digitValue (c : Char) : Nat := c.toNat - 48

/-- The comparison key of a text: one entry `(48, value)` for every maximal run of decimal
digits (48 is the code of the digit zero) and one entry `(code, 0)` for every other
character, case folded. `run` is the value of the digit run being read, if one is open. -/
def strNumKey : List Char → Option Nat → List (Nat × Nat)
  | [], none => []
  | [], some n => [(48, n)]
  | c :: cs, run =>
    if c.isDigit then strNumKey cs (some (run.getD 0 * 10 + digitValue c))
    else
      match run with
      | none => (foldCase c, 0) :: strNumKey cs none
      | some n => (48, n) :: (foldCase c, 0) :: strNumKey cs none

/-- Entry by entry comparison of two keys, first difference decides, a proper beginning of a
key comes first: `-1`, `0` or `1`. -/
def cmpKey : List (Nat × Nat) → List (Nat × Nat) → Int
  | [], [] => 0
  | [], _ :: _ => -1
  | _ :: _, [] => 1
  | a :: as, b :: bs =>
    if a.1 < b.1 then -1
    else if b.1 < a.1 then 1
    else if a.2 < b.2 then -1
    else if b.2 < a.2 then 1
    else cmpKey as bs

/-- Modelled from the spec: `StrNumCmp` of `kicad_string.h`, whose body is not in this source,
as called here (`StrNumCmp( a, b, INT_MAX, true )`, whole strings, case ignored). The spec
describes it as a case-insensitive, locale-agnostic alphanumeric comparison in which digits are
compared numerically within strings, ascending: negative when `a` sorts first, zero when the two
compare equal, positive when `b` sorts first. -/
def StrNumCmp (aString1 aString2 : String) : Int :=
  cmpKey (strNumKey aString1.data none) (strNumKey aString2.data none)

/-- `myCompareFunction( aItem1, aItem2, aSortData )`: both data words are pointers to key
strings; the sort data word is unused. A null pointer reads as the empty string here; no line
the dialog creates carries one (`keyLinked` below). -/
def myCompareFunction (aItem1 aItem2 : wxUIntPtr) (_aSortData : Int) : Int :=
  StrNumCmp (aItem1.getD "") (aItem2.getD "")

/-! ## The dialog -/

/-- The state of an `EDA_LIST_DIALOG`. `δ` is the type of the caller's callback data; the
callback receives the text by reference and may rewrite it and its data. -/
structure EDA_LIST_DIALOG (δ : Type) where
  m_sortList : Bool
  m_cb_func : Option (String → δ → String × δ)
  m_cb_data : δ
  /-- The caller's Item Table (held by pointer, never written). -/
  m_itemsListCp : List wxArrayString
  m_listBox : wxListCtrl
  /-- Line 0 of the filter input. -/
  m_filterBox : String
  /-- The content of the message pane. -/
  m_messages : String
  m_messagesShown : Bool
  m_staticTextMsgShown : Bool
  /-- The code passed to `EndModal`, once the dialog is closed. -/
  m_returnCode : Option Int

namespace EDA_LIST_DIALOG

variable {δ : Type}

/-- `EndModal( retCode )`. -/
def EndModal (d : EDA_LIST_DIALOG δ) (retCode : Int) : EDA_LIST_DIALOG δ :=
  { d with m_returnCode := some retCode }

/-- `EDA_LIST_DIALOG::sortList`. -/
def sortList (wx : wxWidgets) (d : EDA_LIST_DIALOG δ) : EDA_LIST_DIALOG δ :=
  { d with m_listBox :=
      { d.m_listBox with
        items := wx.SortItems (fun a b => myCompareFunction a b 0) d.m_listBox.items } }

/-- `EDA_LIST_DIALOG::Append`. -/
def Append (d : EDA_LIST_DIALOG δ) (itemList : wxArrayString) :
    Except Fault (EDA_LIST_DIALOG δ) := do
  let label ← itemList.Item 0
  let (lb, itemIndex) := d.m_listBox.InsertItemLabel d.m_listBox.GetItemCount label
  -- wxUIntPtr( &itemList[0] ): the pointee is the label just read
  let lb := lb.SetItemPtrData itemIndex (some label)
  -- Adding the next columns content
  let lb ← forLoop 1 itemList.length (fun i lb => do
    let text ← itemList.Item i
    pure (lb.SetItemLabel itemIndex i text)) lb
  pure { d with m_listBox := lb }

/-- `EDA_LIST_DIALOG::InsertItems`. The `wxASSERT` on the cell count has no effect on the
control flow (it is compiled out of release builds) and is not represented. -/
def InsertItems (wx : wxWidgets) (d : EDA_LIST_DIALOG δ) (itemList : List wxArrayString)
    (position : Int) : Except Fault (EDA_LIST_DIALOG δ) := do
  let lb ← forLoop 0 itemList.length (fun row lb => do
    let cells ← vectorAt itemList row
    forLoop 0 cells.length (fun col lb => do
      let text ← cells.Item col
      let width ← DEFAULT_COL_WIDTHS_at col
      let info : wxListItem :=
        { m_itemId := unsigned (row + position)
          m_col := col
          m_text := text
          m_width := width
          m_mask := wxLIST_MASK_TEXT ||| wxLIST_MASK_WIDTH }
      if col = 0 then
        let info := { info with m_data := some text, m_mask := info.m_mask ||| wxLIST_MASK_DATA }
        pure (lb.InsertItem info).1
      else
        pure (lb.SetItem info)) lb) d.m_listBox
  let d := { d with m_listBox := lb }
  if d.m_sortList then pure (sortList wx d) else pure d

/-- `EDA_LIST_DIALOG::initDialog`. The `SetSize` call before `EnsureVisible` changes the
geometry only and is not represented. -/
def initDialog (wx : wxWidgets) (d : EDA_LIST_DIALOG δ) (aItemHeaders : wxArrayString)
    (aSelection : String) : Except Fault (EDA_LIST_DIALOG δ) := do
  let lb ← forLoop 0 aItemHeaders.length (fun i lb => do
    let heading ← aItemHeaders.Item i
    let width ← DEFAULT_COL_WIDTHS_at i
    pure (lb.InsertColumn i heading width)) d.m_listBox
  let d ← InsertItems wx { d with m_listBox := lb } d.m_itemsListCp 0
  let d :=
    if d.m_cb_func.isNone then { d with m_messagesShown := false, m_staticTextMsgShown := false }
    else d
  if aSelection ≠ "" then
    let lb ← forBreak (fun row lb => do
      let cells ← vectorAt d.m_itemsListCp row
      let key ← cells.Item 0
      if key = aSelection then
        pure ((lb.SetItemStateSelected row).EnsureVisible row, true)
      else
        pure (lb, false)) (List.range d.m_itemsListCp.length) d.m_listBox
    pure { d with m_listBox := lb }
  else
    pure d

/-- Modelled from the spec: the state the generated base class `EDA_LIST_DIALOG_BASE` (not in
this source) leaves behind before the constructor body runs: a list control without columns or
lines, an empty filter input, an empty message pane that is shown, and no return code. -/
def base (aSortList : Bool) (aCallBackFunction : Option (String → δ → String × δ))
    (aCallBackFunctionData : δ) (aItemList : List wxArrayString) : EDA_LIST_DIALOG δ :=
  { m_sortList := aSortList
    m_cb_func := aCallBackFunction
    m_cb_data := aCallBackFunctionData
    m_itemsListCp := aItemList
    m_listBox := { columns := [], items := [] }
    m_filterBox := ""
    m_messages := ""
    m_messagesShown := true
    m_staticTextMsgShown := true
    m_returnCode := none }

/-- The constructor `EDA_LIST_DIALOG::EDA_LIST_DIALOG`: stores its arguments and runs
`initDialog` (focus, default button and geometry are not part of the model). -/
def create (wx : wxWidgets) (aItemHeaders : wxArrayString) (aItemList : List wxArrayString)
    (aSelection : String) (aCallBackFunction : Option (String → δ → String × δ))
    (aCallBackFunctionData : δ) (aSortList : Bool) : Except Fault (EDA_LIST_DIALOG δ) :=
  initDialog wx (base aSortList aCallBackFunction aCallBackFunctionData aItemList)
    aItemHeaders aSelection

/-- `EDA_LIST_DIALOG::textChangeInFilterBox`. -/
def textChangeInFilterBox (wx : wxWidgets) (d : EDA_LIST_DIALOG δ) :
    Except Fault (EDA_LIST_DIALOG δ) := do
  let filter := "*" ++ wx.MakeLower d.m_filterBox ++ "*"
  let d := { d with m_listBox := d.m_listBox.DeleteAllItems }
  let d ← forLoop 0 d.m_itemsListCp.length (fun i d => do
    let cells ← vectorAt d.m_itemsListCp i
    let itemName ← cells.Item 0
    if wx.Matches (wx.MakeLower itemName) filter then
      Append d cells
    else
      pure d) d
  if d.m_sortList then pure (sortList wx d) else pure d

/-- The user edits the filter input: the text becomes `text` and the text-change handler
runs. -/
def typeFilter (wx : wxWidgets) (text : String) (d : EDA_LIST_DIALOG δ) :
    Except Fault (EDA_LIST_DIALOG δ) :=
  textChangeInFilterBox wx { d with m_filterBox := text }

/-- `EDA_LIST_DIALOG::GetTextSelection`. -/
def GetTextSelection (d : EDA_LIST_DIALOG δ) (aColumn : Int) : String :=
  -- wxCHECK_MSG( unsigned( aColumn ) < unsigned( m_listBox->GetColumnCount() ), wxEmptyString, ... )
  if ¬ (unsigned aColumn < unsigned d.m_listBox.GetColumnCount) then wxEmptyString
  else
    let item := d.m_listBox.GetNextItem (-1)
    let found :=
      if item ≥ 0 then     -- if something is selected.
        let info : wxListItem := { m_mask := wxLIST_MASK_TEXT, m_itemId := item, m_col := aColumn }
        (d.m_listBox.GetItem info).map (·.m_text)
      else none
    match found with
    | some text => text
    | none => wxEmptyString

/-- `EDA_LIST_DIALOG::onCancelClick`. -/
def onCancelClick (d : EDA_LIST_DIALOG δ) : EDA_LIST_DIALOG δ := d.EndModal wxID_CANCEL

/-- `EDA_LIST_DIALOG::onListItemSelected`; `GetTextSelection()` is called with its default
column 0, `Clear` empties the message pane and `WriteText` adds to it. -/
def onListItemSelected (d : EDA_LIST_DIALOG δ) : EDA_LIST_DIALOG δ :=
  match d.m_cb_func with
  | some cb =>
    let d := { d with m_messages := "" }
    let text := d.GetTextSelection 0
    let (text, data) := cb text d.m_cb_data
    { d with m_cb_data := data, m_messages := d.m_messages ++ text }
  | none => d

/-- `EDA_LIST_DIALOG::onListItemActivated`. -/
def onListItemActivated (d : EDA_LIST_DIALOG δ) : EDA_LIST_DIALOG δ := d.EndModal wxID_OK

/-- `EDA_LIST_DIALOG::onOkClick`. -/
def onOkClick (d : EDA_LIST_DIALOG δ) : EDA_LIST_DIALOG δ := d.EndModal wxID_OK

/-- `EDA_LIST_DIALOG::onClose`. -/
def onClose (d : EDA_LIST_DIALOG δ) : EDA_LIST_DIALOG δ := d.EndModal wxID_CANCEL

end EDA_LIST_DIALOG

/-! ## Sequences of operations -/

/-- The operations on an open dialog that change what it shows. -/
inductive Op where
  /-- The user edits the filter input (see `typeFilter`). -/
  | typeFilter (text : String)
  /-- A call of `Append`. -/
  | Append (itemList : wxArrayString)
  /-- A call of `InsertItems`. -/
  | InsertItems (itemList : List wxArrayString) (position : Int)
  /-- A call of `sortList`. -/
  | sortList
  deriving DecidableEq, Repr

/-- Whether the operation is a filter text change or a sort. -/
def Op.keepsFilter : Op → Bool
  | .typeFilter _ => true
  | .sortList => true
  | _ => false

/-- Perform one operation. -/
def Op.apply {δ : Type} (wx : wxWidgets) (op : Op) (d : EDA_LIST_DIALOG δ) :
    Except Fault (EDA_LIST_DIALOG δ) :=
  match op with
  | .typeFilter text => EDA_LIST_DIALOG.typeFilter wx text d
  | .Append itemList => EDA_LIST_DIALOG.Append d itemList
  | .InsertItems itemList position => EDA_LIST_DIALOG.InsertItems wx d itemList position
  | .sortList => pure (EDA_LIST_DIALOG.sortList wx d)

/-- Perform a sequence of operations, first to last, stopping at the first fault. -/
def run {δ : Type} (wx : wxWidgets) : List Op → EDA_LIST_DIALOG δ → Except Fault (EDA_LIST_DIALOG δ)
  | [], d => pure d
  | op :: ops, d =>
    match op.apply wx d with
    | .error f => .error f
    | .ok e => run wx ops e

/-! ## A reference toolkit, for evaluating the dialog on concrete inputs -/

/-- ASCII lower-casing. -/
def asciiLower (s : String) : String :=
  ⟨s.data.map fun c => if 65 ≤ c.toNat ∧ c.toNat ≤ 90 then Char.ofNat (c.toNat + 32) else c⟩

/-- Wildcard matching of a text against a mask: `*` stands for any run of characters, `?` for
any one character. -/
def wildcard : List Char → List Char → Bool
  | [], text => text.isEmpty
  | m :: ms, text =>
    if m = '*' then text.tails.any fun rest => wildcard ms rest
    else
      match text with
      | [] => false
      | c :: cs => (m = '?' || m = c) && wildcard ms cs

/-- A toolkit instance: ASCII lower-casing, plain wildcard matching, insertion sort. -/
def wxReference : wxWidgets :=
  { MakeLower := asciiLower
    Matches := fun text mask => wildcard mask.data text.data
    SortItems := fun cmp l => l.insertionSort (fun a b => cmp a.data b.data ≤ 0) }

/-! ## Definitions used to state the properties -/

/-- The line that shows table row `r` in a control with `n` columns: the cells of `r` column
by column (empty where `r` has no cell), the data word pointing at the key cell of `r`, not
selected. -/
def rowLine (n : Nat) (r : wxArrayString) : wxListLine :=
  { cells := (List.range n).map (fun c => r.getD c ""), data := r.head?, selected := false }

/-- The lines an operation leaves in the list control; `none` when it faulted. -/
def shown {δ : Type} (r : Except Fault (EDA_LIST_DIALOG δ)) : Option (List wxListLine) :=
  match r with
  | .ok e => some e.m_listBox.items
  | .error _ => none

/-- What `GetTextSelection( c )` returns after an operation; `none` when the operation
faulted. -/
def selectionText {δ : Type} (r : Except Fault (EDA_LIST_DIALOG δ)) (c : Int) : Option String :=
  match r with
  | .ok e => some (e.GetTextSelection c)
  | .error _ => none

/-- Index of the first row of a table whose key cell is `key`. -/
def firstKeyed (key : String) : List wxArrayString → Option Nat
  | [] => none
  | r :: rs => if r.head? = some key then some 0 else (firstKeyed key rs).map (· + 1)

/-- The fault an operation ended in; `none` when it returned. -/
def faultOf {δ : Type} (r : Except Fault (EDA_LIST_DIALOG δ)) : Option Fault :=
  match r with
  | .ok _ => none
  | .error f => some f

/-- The cells of a line of which the columns below `k` have been filled from row `r`. -/
def partialCells (n : Nat) (r : wxArrayString) (k : Nat) : List String :=
  (List.range n).map (fun c => if c < k then r.getD c "" else "")

/-- The text the control shows in column 0 of a line (empty when there is no column). -/
def keyText (line : wxListLine) : String := line.cells.getD 0 ""

/-- The text `a` does not sort after the text `b` under `StrNumCmp`. -/
def keyLe (a b : String) : Prop := StrNumCmp a b ≤ 0

/-- The rows of a table whose lower-cased key cell matches the lower-cased filter text `f`
wrapped in `*`, in table order. -/
def matching (wx : wxWidgets) (table : List wxArrayString) (f : String) : List wxArrayString :=
  table.filter fun r => wx.Matches (wx.MakeLower (r.headD "")) ("*" ++ wx.MakeLower f ++ "*")

/-- The lines of `sortList`: the toolkit sort with `myCompareFunction` when sorting is enabled,
the lines as they are otherwise. -/
def sortedIf (wx : wxWidgets) (enabled : Bool) (l : List wxListLine) : List wxListLine :=
  if enabled then wx.SortItems (fun a b => myCompareFunction a b 0) l else l

/-- The displayed rows are a filtered subset of the Item Table: every line shown is, the
selection flag aside, the line of a table row whose lower-cased key cell matches the lower-cased
filter text wrapped in `*`. -/
abbrev FilteredSubset {δ : Type} (wx : wxWidgets) (d : EDA_LIST_DIALOG δ) : Prop :=
  ∀ line ∈ d.m_listBox.items, ∃ r ∈ matching wx d.m_itemsListCp d.m_filterBox,
    line.cells = (rowLine d.m_listBox.columns.length r).cells ∧ line.data = r.head?

/-- The lines of a freshly constructed dialog with `n` columns: the lines of the table rows,
sorted when sorting is enabled, and, for a non-empty preselection key found in table row `j`,
the selection flag set on the line at position `j` of that list. -/
def createdLines (wx : wxWidgets) (aSortList : Bool) (n : Nat) (table : List wxArrayString)
    (aSelection : String) : List wxListLine :=
  let lines := sortedIf wx aSortList (table.map (rowLine n))
  if aSelection = "" then lines
  else
    match firstKeyed aSelection table with
    | some j => updateLine (fun line => { line with selected := true }) j lines
    | none => lines

/-- A line of a control with `n` columns whose back-reference is sound: it has `n` cells and,
when there is a column 0, its data word points at a string equal to its column-0 text. -/
def keyLinked (n : Nat) (line : wxListLine) : Prop :=
  line.cells.length = n ∧ (0 < n → line.data = some (keyText line))

/-- All lines of the control are `keyLinked`. -/
def Linked (lb : wxListCtrl) : Prop :=
  ∀ line ∈ lb.items, keyLinked lb.columns.length line

/-! ## Concrete inputs -/

/-- A table with two-cell rows, used to evaluate the dialog on a concrete input. -/
def sampleTable : List wxArrayString :=
  [["banana", "fruit"], ["Item10", "part"], ["item2", "part"], ["Apple", "fruit"]]

/-- A dialog over `sampleTable` with two columns, its rows shown in table order and the second
one selected, at the moment the user has typed `IT` into the filter input and the text-change
handler has not run yet; callback data 0. -/
def sampleDialog (aSortList : Bool) (aCallBackFunction : Option (String → Nat → String × Nat)) :
    EDA_LIST_DIALOG Nat :=
  { m_sortList := aSortList
    m_cb_func := aCallBackFunction
    m_cb_data := 0
    m_itemsListCp := sampleTable
    m_listBox :=
      { columns := [("Name", 400), ("Kind", 200)]
        items :=
          [ { cells := ["banana", "fruit"], data := some "banana", selected := false },
            { cells := ["Item10", "part"], data := some "Item10", selected := true },
            { cells := ["item2", "part"], data := some "item2", selected := false },
            { cells := ["Apple", "fruit"], data := some "Apple", selected := false } ] }
    m_filterBox := "IT"
    m_messages := ""
    m_messagesShown := true
    m_staticTextMsgShown := true
    m_returnCode := none }

/-- The sample dialog with sorting enabled and an empty filter input. -/
def sampleDialogUnfiltered : EDA_LIST_DIALOG Nat :=
  { sampleDialog true none with m_filterBox := "" }

/-- A dialog with one column showing two rows whose keys differ in case only. -/
def tieDialog : EDA_LIST_DIALOG Nat :=
  { sampleDialog true none with
    m_itemsListCp := [["abc"], ["ABC"]]
    m_listBox := { columns := [("Name", 400)], items := [rowLine 1 ["abc"], rowLine 1 ["ABC"]] } }

/-- A second toolkit instance: as `wxReference`, except that `SortItems` takes the lines in
reverse order before sorting them, so that lines comparing equal come out reversed. -/
def wxReversing : wxWidgets :=
  { wxReference with
    SortItems := fun cmp l => l.reverse.insertionSort (fun a b => cmp a.data b.data ≤ 0) }

/-- A callback for concrete inputs: it rewrites the text it is handed to `about ` followed by
that text and counts its invocations in its data. -/
def sampleCallback (text : String) (calls : Nat) : String × Nat := ("about " ++ text, calls + 1)

/-- The sample dialog with a list control of three columns and no lines. -/
def threeColumnDialog : EDA_LIST_DIALOG Nat :=
  { sampleDialog false none with
    m_listBox := { columns := [("A", 400), ("B", 200), ("C", 0)], items := [] } }

open EDA_LIST_DIALOG

variable {δ : Type}

/-! ## Loops -/

theorem forLoop_self {σ : Type} (lo : Nat) (body : Nat → σ → Except Fault σ) (s : σ) :
    forLoop lo lo body s = .ok s := by
  simp [forLoop, pure, Except.pure]

theorem forLoop_step {σ : Type} (lo hi : Nat) (h : lo < hi) (body : Nat → σ → Except Fault σ)
    (s : σ) : forLoop lo hi body s = (body lo s >>= fun t => forLoop (lo + 1) hi body t) := by
  unfold forLoop
  obtain ⟨k, rfl⟩ : ∃ k, hi = lo + 1 + k := ⟨hi - lo - 1, by omega⟩
  have h1 : lo + 1 + k - lo = k + 1 := by omega
  have h2 : lo + 1 + k - (lo + 1) = k := by omega
  rw [h1, h2, List.range'_succ, List.foldlM_cons]

/-- Hoare rule for counting loops: an invariant that every iteration re-establishes without
faulting holds when the loop ends, and the loop does end without a fault. -/
theorem forLoop_inv {σ : Type} (P : Nat → σ → Prop) (hi : Nat) (body : Nat → σ → Except Fault σ)
    (hstep : ∀ i t, i < hi → P i t → ∃ u, body i t = .ok u ∧ P (i + 1) u) :
    ∀ (n lo : Nat) (s : σ), lo + n = hi → P lo s →
      ∃ t, forLoop lo hi body s = .ok t ∧ P hi t := by
  intro n
  induction n with
  | zero =>
    intro lo s h hP
    have : lo = hi := by omega
    subst this
    exact ⟨s, forLoop_self _ _ _, hP⟩
  | succ n ih =>
    intro lo s h hP
    obtain ⟨u, hu, hPu⟩ := hstep lo s (by omega) hP
    obtain ⟨t, ht, hPt⟩ := ih (lo + 1) u (by omega) hPu
    refine ⟨t, ?_, hPt⟩
    rw [forLoop_step lo hi (by omega), hu]
    exact ht

/-- Partial-correctness rule: whatever a loop returns satisfies every property its body
preserves. -/
theorem forLoop_preserves {σ : Type} (P : σ → Prop) (hi : Nat)
    (body : Nat → σ → Except Fault σ)
    (hstep : ∀ i t u, i < hi → P t → body i t = .ok u → P u) :
    ∀ (n lo : Nat) (s t : σ), lo + n = hi → P s → forLoop lo hi body s = .ok t → P t := by
  intro n
  induction n with
  | zero =>
    intro lo s t h hP ht
    have : lo = hi := by omega
    subst this
    rw [forLoop_self] at ht
    cases ht
    exact hP
  | succ n ih =>
    intro lo s t h hP ht
    rw [forLoop_step lo hi (by omega)] at ht
    cases hb : body lo s with
    | error e => rw [hb] at ht; cases ht
    | ok u =>
      rw [hb] at ht
      exact ih (lo + 1) u t (by omega) (hstep lo s u (by omega) hP hb) ht

/-! ## Cells and lines -/

theorem partialCells_one (n : Nat) (key : String) (rest : List String) :
    (List.replicate n "").set 0 key = partialCells n (key :: rest) 1 := by
  apply List.ext_getElem
  · simp [partialCells]
  · intro i h1 h2
    simp only [partialCells, List.getElem_set, List.getElem_map, List.getElem_range,
      List.getElem_replicate]
    rcases i with _ | i <;> simp

theorem partialCells_set (n : Nat) (r : wxArrayString) (k : Nat) (text : String)
    (h : r[k]? = some text) :
    (partialCells n r k).set k text = partialCells n r (k + 1) := by
  apply List.ext_getElem
  · simp [partialCells]
  · intro i h1 h2
    simp only [partialCells, List.getElem_set, List.getElem_map, List.getElem_range]
    by_cases hik : k = i
    · subst hik; simp [List.getD, h]
    · have h3 : (i < k + 1) = (i < k) := by
        apply propext; constructor <;> intro h4 <;> omega
      simp [hik, h3]

theorem partialCells_full (n : Nat) (r : wxArrayString) :
    partialCells n r r.length = (List.range n).map (fun c => r.getD c "") := by
  apply List.map_congr_left
  intro c _
  by_cases h : c < r.length
  · simp [h]
  · simp [h, List.getD, List.getElem?_eq_none (by omega : r.length ≤ c)]

theorem updateLine_append (f : wxListLine → wxListLine) (l1 : List wxListLine) (x : wxListLine)
    (l2 : List wxListLine) :
    updateLine f l1.length (l1 ++ x :: l2) = l1 ++ f x :: l2 := by
  induction l1 with
  | nil => rfl
  | cons a l1 ih => simp [updateLine, ih]

/-! ## `Append` and the filter loop -/

theorem Item_eq_ok (r : wxArrayString) (i : Nat) (t : String) (h : r[i]? = some t) :
    r.Item i = .ok t := by
  simp [wxArrayString.Item, h, pure, Except.pure]

theorem hasMask_text : hasMask wxLIST_MASK_TEXT wxLIST_MASK_TEXT = true := by decide
theorem hasMask_text_data : hasMask wxLIST_MASK_TEXT wxLIST_MASK_DATA = false := by decide
theorem hasMask_data_text : hasMask wxLIST_MASK_DATA wxLIST_MASK_TEXT = false := by decide
theorem hasMask_data : hasMask wxLIST_MASK_DATA wxLIST_MASK_DATA = true := by decide

/-- The loop of `Append` over the columns after the first. -/
theorem Append_loop (cols : List (String × Int)) (items : List wxListLine) (key : String)
    (rest : List String) :
    forLoop 1 (key :: rest).length (fun i (lb : wxListCtrl) => do
        let text ← wxArrayString.Item (key :: rest) i
        pure (lb.SetItemLabel (items.length : Int) i text))
      ({ columns := cols, items := items ++
          [{ cells := partialCells cols.length (key :: rest) 1, data := some key,
             selected := false }] } : wxListCtrl)
    = .ok { columns := cols, items := items ++ [rowLine cols.length (key :: rest)] } := by
  obtain ⟨t, ht, hP⟩ := forLoop_inv
    (fun i (lb : wxListCtrl) => lb = { columns := cols, items := items ++
        [{ cells := partialCells cols.length (key :: rest) i,
           data := some key, selected := false }] })
    (key :: rest).length
    (fun i lb => do
      let text ← wxArrayString.Item (key :: rest) i
      pure (lb.SetItemLabel (items.length : Int) i text))
    (by
      intro i t hi hP
      obtain ⟨text, htext⟩ : ∃ text, (key :: rest)[i]? = some text :=
        ⟨(key :: rest)[i], by simp [List.getElem?_eq_getElem hi]⟩
      dsimp only
      rw [Item_eq_ok _ _ _ htext]
      refine ⟨_, rfl, ?_⟩
      subst hP
      simp only [wxListCtrl.SetItemLabel, wxListCtrl.SetItem, Int.natCast_nonneg, if_true,
        Int.toNat_ofNat, updateLine_append, wxListLine.apply, hasMask_text, hasMask_text_data,
        setCell, partialCells_set _ _ _ _ htext]
      simp)
    rest.length 1
    { columns := cols, items := items ++
        [{ cells := partialCells cols.length (key :: rest) 1,
           data := some key, selected := false }] }
    (by simp; omega) rfl
  rw [ht, hP, partialCells_full]
  rfl

theorem InsertItem_eq (lb : wxListCtrl) (info : wxListItem) (k : Nat)
    (hid : info.m_itemId = (k : Int)) (hk : k ≤ lb.items.length) :
    lb.InsertItem info =
      ({ lb with items := lb.items.take k ++
          wxListLine.apply info (freshLine lb.columns.length) :: lb.items.drop k }, (k : Int)) := by
  have h1 : ¬ ((k : Int) < 0) := by omega
  simp [wxListCtrl.InsertItem, hid, h1, Nat.min_eq_left hk]

theorem SetItem_eq (cols : List (String × Int)) (l1 l2 : List wxListLine) (x : wxListLine)
    (info : wxListItem) (hid : info.m_itemId = (l1.length : Int)) :
    wxListCtrl.SetItem { columns := cols, items := l1 ++ x :: l2 } info =
      { columns := cols, items := l1 ++ wxListLine.apply info x :: l2 } := by
  simp [wxListCtrl.SetItem, hid, updateLine_append]

/-- `Append` adds, after the lines shown so far, the line of the row it is given. -/
theorem Append_eq (d : EDA_LIST_DIALOG δ) (key : String) (rest : List String) :
    EDA_LIST_DIALOG.Append d (key :: rest) = .ok { d with m_listBox :=
      { d.m_listBox with
        items := d.m_listBox.items ++ [rowLine d.m_listBox.columns.length (key :: rest)] } } := by
  have h := Append_loop d.m_listBox.columns d.m_listBox.items key rest
  have h1 := InsertItem_eq d.m_listBox
    { m_mask := wxLIST_MASK_TEXT, m_itemId := (d.m_listBox.items.length : Int), m_text := key }
    d.m_listBox.items.length rfl (Nat.le_refl _)
  simp only [List.take_length, List.drop_length] at h1
  have h0 : wxArrayString.Item (key :: rest) 0 = .ok key := Item_eq_ok _ _ _ (by simp)
  simp only [bind, Except.bind, pure, Except.pure] at h
  simp only [EDA_LIST_DIALOG.Append, h0,
    wxListCtrl.InsertItemLabel, wxListCtrl.GetItemCount, h1, wxListCtrl.SetItemPtrData,
    bind, Except.bind, pure, Except.pure]
  rw [SetItem_eq _ _ _ _ _ rfl]
  simp only [wxListLine.apply, hasMask_text, hasMask_text_data, hasMask_data_text, hasMask_data,
    setCell, freshLine, le_refl, if_true, Int.toNat_zero, partialCells_one _ key rest]
  simp only [Bool.false_eq_true, if_false]
  rw [h]

theorem vectorAt_eq_ok (v : List wxArrayString) (i : Nat) (h : i < v.length) :
    vectorAt v i = .ok v[i] := by
  simp [vectorAt, List.getElem?_eq_getElem h, pure, Except.pure]

theorem take_succ_filter_map {α β : Type} (l : List α) (i : Nat) (h : i < l.length)
    (p : α → Bool) (f : α → β) :
    ((l.take (i + 1)).filter p).map f =
      ((l.take i).filter p).map f ++ if p l[i] then [f l[i]] else [] := by
  rw [List.take_succ, List.getElem?_eq_getElem h, List.filter_append, List.map_append]
  by_cases hp : p l[i] <;> simp [hp]

/-- The filter loop of `textChangeInFilterBox`, started on the emptied control. -/
theorem filter_loop (wx : wxWidgets) (d : EDA_LIST_DIALOG δ)
    (hrows : ∀ r ∈ d.m_itemsListCp, r ≠ []) (filter : String) :
    forLoop 0 d.m_itemsListCp.length (fun i (e : EDA_LIST_DIALOG δ) => do
        let cells ← vectorAt e.m_itemsListCp i
        let itemName ← cells.Item 0
        if wx.Matches (wx.MakeLower itemName) filter then
          EDA_LIST_DIALOG.Append e cells
        else
          pure e) { d with m_listBox := d.m_listBox.DeleteAllItems }
    = .ok { d with m_listBox :=
        { columns := d.m_listBox.columns
          items := (d.m_itemsListCp.filter fun r =>
            wx.Matches (wx.MakeLower (r.headD "")) filter).map
              (rowLine d.m_listBox.columns.length) } } := by
  obtain ⟨t, ht, hP⟩ := forLoop_inv
    (fun i (e : EDA_LIST_DIALOG δ) => e = { d with m_listBox :=
        { columns := d.m_listBox.columns
          items := ((d.m_itemsListCp.take i).filter fun r =>
            wx.Matches (wx.MakeLower (r.headD "")) filter).map
              (rowLine d.m_listBox.columns.length) } })
    d.m_itemsListCp.length
    (fun i (e : EDA_LIST_DIALOG δ) => do
        let cells ← vectorAt e.m_itemsListCp i
        let itemName ← cells.Item 0
        if wx.Matches (wx.MakeLower itemName) filter then
          EDA_LIST_DIALOG.Append e cells
        else
          pure e)
    (by
      intro i t hi hP
      subst hP
      dsimp only
      rw [vectorAt_eq_ok _ _ hi]
      have hne := hrows _ (List.getElem_mem hi)
      obtain ⟨key, rest, hkr⟩ : ∃ key rest, d.m_itemsListCp[i] = key :: rest := by
        cases hr : d.m_itemsListCp[i] with
        | nil => exact absurd hr hne
        | cons key rest => exact ⟨key, rest, rfl⟩
      simp only [bind, Except.bind, hkr, Item_eq_ok (key :: rest) 0 key (by simp)]
      rw [take_succ_filter_map _ _ hi, hkr]
      by_cases hm : wx.Matches (wx.MakeLower key) filter = true
      · simp [hm, Append_eq]
      · simp [hm, pure, Except.pure])
    d.m_itemsListCp.length 0 { d with m_listBox := d.m_listBox.DeleteAllItems }
    (by simp) (by simp [wxListCtrl.DeleteAllItems])
  rw [ht, hP, List.take_length]

/-- What `textChangeInFilterBox` computes. -/
theorem textChangeInFilterBox_eq (wx : wxWidgets) (d : EDA_LIST_DIALOG δ)
    (hrows : ∀ r ∈ d.m_itemsListCp, r ≠ []) :
    textChangeInFilterBox wx d = .ok { d with m_listBox :=
      { columns := d.m_listBox.columns
        items := sortedIf wx d.m_sortList
          ((matching wx d.m_itemsListCp d.m_filterBox).map
            (rowLine d.m_listBox.columns.length)) } } := by
  have h := filter_loop wx d hrows ("*" ++ wx.MakeLower d.m_filterBox ++ "*")
  simp only [bind, Except.bind, pure, Except.pure] at h
  simp only [textChangeInFilterBox, bind, Except.bind, pure, Except.pure, h]
  cases hs : d.m_sortList <;> simp [sortedIf, matching, sortList]

/-! ## The toolkit sort and the comparison -/

/-- Insertion sort meets the contract of `SortItems`. -/
theorem wxReference_contract : SortItemsContract wxReference where
  perm := fun _ l => (List.perm_insertionSort _ l).map _
  selects_nothing := fun _ l _ hx _ => (List.perm_insertionSort _ l).subset hx
  sorted := fun cmp hcmp l => by
    haveI : IsTotal wxListLine (fun a b => cmp a.data b.data ≤ 0) :=
      ⟨fun a b => hcmp.total _ _⟩
    haveI : IsTrans wxListLine (fun a b => cmp a.data b.data ≤ 0) :=
      ⟨fun a b c => hcmp.trans _ _ _⟩
    exact List.sorted_insertionSort _ l

/-- A line of the sorted list is, the selection flag aside, a line of the list sorted. -/
theorem SortItems_mem (wx : wxWidgets) (hwx : SortItemsContract wx)
    (cmp : wxUIntPtr → wxUIntPtr → Int) (l : List wxListLine) (x : wxListLine)
    (hx : x ∈ wx.SortItems cmp l) : ∃ y ∈ l, x.cells = y.cells ∧ x.data = y.data := by
  have h1 : x.unselect ∈ (wx.SortItems cmp l).map wxListLine.unselect :=
    List.mem_map_of_mem _ hx
  obtain ⟨y, hy, hxy⟩ := List.mem_map.mp ((hwx.perm cmp l).subset h1)
  have hc : y.unselect.cells = x.unselect.cells := congrArg wxListLine.cells hxy
  have hd : y.unselect.data = x.unselect.data := congrArg wxListLine.data hxy
  exact ⟨y, hy, hc.symm, hd.symm⟩

/-- A line of the list sorted is, the selection flag aside, a line of the sorted list. -/
theorem SortItems_mem_of (wx : wxWidgets) (hwx : SortItemsContract wx)
    (cmp : wxUIntPtr → wxUIntPtr → Int) (l : List wxListLine) (y : wxListLine)
    (hy : y ∈ l) : ∃ x ∈ wx.SortItems cmp l, x.cells = y.cells ∧ x.data = y.data := by
  have h1 : y.unselect ∈ l.map wxListLine.unselect := List.mem_map_of_mem _ hy
  obtain ⟨x, hx, hxy⟩ := List.mem_map.mp ((hwx.perm cmp l).symm.subset h1)
  have hc : x.unselect.cells = y.unselect.cells := congrArg wxListLine.cells hxy
  have hd : x.unselect.data = y.unselect.data := congrArg wxListLine.data hxy
  exact ⟨x, hx, hc, hd⟩

theorem map_unselect_eq (l : List wxListLine) (h : ∀ x ∈ l, x.selected = false) :
    l.map wxListLine.unselect = l := by
  induction l with
  | nil => rfl
  | cons a l ih =>
    have ha : a.unselect = a := by
      have := h a (List.mem_cons_self _ _)
      cases a
      simp_all [wxListLine.unselect]
    simp [ha, ih (fun x hx => h x (List.mem_cons_of_mem _ hx))]

/-- Sorting lines none of which is selected rearranges them. -/
theorem SortItems_perm (wx : wxWidgets) (hwx : SortItemsContract wx)
    (cmp : wxUIntPtr → wxUIntPtr → Int) (l : List wxListLine)
    (hl : ∀ x ∈ l, x.selected = false) : (wx.SortItems cmp l).Perm l := by
  have hs : ∀ x ∈ wx.SortItems cmp l, x.selected = false := by
    intro x hx
    cases hsel : x.selected with
    | false => rfl
    | true => exact absurd (hl x (hwx.selects_nothing cmp l x hx hsel)) (by simp [hsel])
  have h := hwx.perm cmp l
  rwa [map_unselect_eq _ hs, map_unselect_eq _ hl] at h

theorem sortedIf_perm (wx : wxWidgets) (hwx : SortItemsContract wx) (b : Bool)
    (l : List wxListLine) (hl : ∀ x ∈ l, x.selected = false) : (sortedIf wx b l).Perm l := by
  cases b
  · exact List.Perm.refl _
  · exact SortItems_perm wx hwx _ l hl

theorem rowLines_unselected (n : Nat) (t : List wxArrayString) :
    ∀ x ∈ t.map (rowLine n), x.selected = false := by
  intro x hx
  obtain ⟨r, _, rfl⟩ := List.mem_map.mp hx
  rfl

theorem cmpKey_self (a : List (Nat × Nat)) : cmpKey a a = 0 := by
  induction a with
  | nil => rfl
  | cons x xs ih => simp [cmpKey, ih]

theorem cmpKey_total (a b : List (Nat × Nat)) : cmpKey a b ≤ 0 ∨ cmpKey b a ≤ 0 := by
  induction a generalizing b with
  | nil => cases b <;> simp [cmpKey]
  | cons x xs ih =>
    cases b with
    | nil => simp [cmpKey]
    | cons y ys =>
      simp only [cmpKey]
      have := ih ys
      split_ifs <;> omega

theorem cmpKey_trans (a b c : List (Nat × Nat)) (h1 : cmpKey a b ≤ 0) (h2 : cmpKey b c ≤ 0) :
    cmpKey a c ≤ 0 := by
  induction a generalizing b c with
  | nil => cases c <;> simp [cmpKey]
  | cons x xs ih =>
    cases b with
    | nil => simp [cmpKey] at h1
    | cons y ys =>
      cases c with
      | nil => simp [cmpKey] at h2
      | cons z zs =>
        simp only [cmpKey] at h1 h2 ⊢
        split_ifs at h1 h2 ⊢ <;> first | omega | exact ih ys zs h1 h2

/-- The comparison callback of `sortList` is an ordering. -/
theorem myCompareFunction_ordering : IsOrdering (fun a b => myCompareFunction a b 0) where
  total := fun _ _ => cmpKey_total _ _
  trans := fun _ _ _ => cmpKey_trans _ _ _

/-! ## `GetTextSelection` -/

theorem firstSelected_none (l : List wxListLine) (h : ∀ x ∈ l, x.selected = false) :
    firstSelected l = none := by
  induction l with
  | nil => rfl
  | cons x xs ih =>
    have hx : x.selected = false := h x (List.mem_cons_self _ _)
    simp [firstSelected, hx, ih (fun y hy => h y (List.mem_cons_of_mem _ hy))]

theorem firstSelected_append (l1 l2 : List wxListLine) (line : wxListLine)
    (h1 : ∀ x ∈ l1, x.selected = false) (h2 : line.selected = true) :
    firstSelected (l1 ++ line :: l2) = some l1.length := by
  induction l1 with
  | nil => simp [firstSelected, h2]
  | cons x xs ih =>
    have hx : x.selected = false := h1 x (List.mem_cons_self _ _)
    simp [firstSelected, hx, ih (fun y hy => h1 y (List.mem_cons_of_mem _ hy))]

theorem unsigned_of_nonneg (c : Int) (h0 : 0 ≤ c) (h1 : c < 2 ^ 32) : unsigned c = c.toNat := by
  unfold unsigned
  rw [Int.emod_eq_of_lt h0 h1]

theorem unsigned_of_neg (c : Int) (h0 : c < 0) (h1 : -2 ^ 31 ≤ c) : 2 ^ 31 ≤ unsigned c := by
  unfold unsigned
  omega

theorem GetTextSelection_none (d : EDA_LIST_DIALOG δ) (c : Int)
    (h : ∀ x ∈ d.m_listBox.items, x.selected = false) : d.GetTextSelection c = "" := by
  unfold GetTextSelection
  by_cases hc : unsigned c < unsigned d.m_listBox.GetColumnCount
  · simp [hc, wxListCtrl.GetNextItem, firstSelected_none _ h, wxEmptyString]
  · simp [hc, wxEmptyString]

theorem GetTextSelection_outside (d : EDA_LIST_DIALOG δ) (c : Int)
    (hc : -2 ^ 31 ≤ c ∧ c < 2 ^ 31) (hn : d.m_listBox.columns.length < 2 ^ 31)
    (h : c < 0 ∨ (d.m_listBox.columns.length : Int) ≤ c) : d.GetTextSelection c = "" := by
  unfold GetTextSelection
  have : ¬ (unsigned c < unsigned d.m_listBox.GetColumnCount) := by
    simp only [wxListCtrl.GetColumnCount]
    rw [unsigned_of_nonneg (d.m_listBox.columns.length : Int) (by omega) (by omega)]
    rcases h with h | h
    · have := unsigned_of_neg c h hc.1
      omega
    · rw [unsigned_of_nonneg c (by omega) (by omega)]
      omega
  simp [this, wxEmptyString]

theorem GetTextSelection_selected (d : EDA_LIST_DIALOG δ) (c : Int)
    (hn : d.m_listBox.columns.length < 2 ^ 31)
    (l1 l2 : List wxListLine) (line : wxListLine)
    (hitems : d.m_listBox.items = l1 ++ line :: l2)
    (h1 : ∀ x ∈ l1, x.selected = false) (h2 : line.selected = true)
    (h0 : 0 ≤ c) (hcn : c < (d.m_listBox.columns.length : Int)) :
    d.GetTextSelection c = line.cells.getD c.toNat "" := by
  unfold GetTextSelection
  have : unsigned c < unsigned d.m_listBox.GetColumnCount := by
    simp only [wxListCtrl.GetColumnCount]
    rw [unsigned_of_nonneg (d.m_listBox.columns.length : Int) (by omega) (by omega),
      unsigned_of_nonneg c (by omega) (by omega)]
    omega
  have hneg : ¬ ((l1.length : Int) < 0) := by omega
  simp [this, wxListCtrl.GetNextItem, hitems, firstSelected_append _ _ _ h1 h2,
    wxListCtrl.GetItem, h0, hneg, List.getElem_append_right]

/-! ## `InsertItems` -/

theorem hasMask_tw_text : hasMask (wxLIST_MASK_TEXT ||| wxLIST_MASK_WIDTH) wxLIST_MASK_TEXT = true := by
  decide
theorem hasMask_tw_data : hasMask (wxLIST_MASK_TEXT ||| wxLIST_MASK_WIDTH) wxLIST_MASK_DATA = false := by
  decide
theorem hasMask_twd_text :
    hasMask (wxLIST_MASK_TEXT ||| wxLIST_MASK_WIDTH ||| wxLIST_MASK_DATA) wxLIST_MASK_TEXT = true := by
  decide
theorem hasMask_twd_data :
    hasMask (wxLIST_MASK_TEXT ||| wxLIST_MASK_WIDTH ||| wxLIST_MASK_DATA) wxLIST_MASK_DATA = true := by
  decide

theorem DEFAULT_COL_WIDTHS_at_ok (i : Nat) (h : i < 2) :
    ∃ w, DEFAULT_COL_WIDTHS_at i = .ok w := by
  rcases i with _ | _ | i
  · exact ⟨400, rfl⟩
  · exact ⟨200, rfl⟩
  · omega

/-- The column loop of `InsertItems` for one row with one or two cells: the line of the row is
inserted at the position the line index names. -/
theorem InsertItems_row (cols : List (String × Int)) (pre post : List wxListLine)
    (key : String) (rest : List String) (hlen : (key :: rest).length ≤ 2) (id : Nat)
    (hid : id = pre.length) :
    forLoop 0 (key :: rest).length (fun col (lb : wxListCtrl) => do
        let text ← wxArrayString.Item (key :: rest) col
        let width ← DEFAULT_COL_WIDTHS_at col
        let info : wxListItem :=
          { m_itemId := id
            m_col := col
            m_text := text
            m_width := width
            m_mask := wxLIST_MASK_TEXT ||| wxLIST_MASK_WIDTH }
        if col = 0 then
          let info := { info with m_data := some text, m_mask := info.m_mask ||| wxLIST_MASK_DATA }
          pure (lb.InsertItem info).1
        else
          pure (lb.SetItem info)) ({ columns := cols, items := pre ++ post } : wxListCtrl)
    = .ok { columns := cols, items := pre ++ rowLine cols.length (key :: rest) :: post } := by
  subst hid
  obtain ⟨t, ht, hP⟩ := forLoop_inv
    (fun col (lb : wxListCtrl) =>
      (col = 0 ∧ lb = { columns := cols, items := pre ++ post }) ∨
      (1 ≤ col ∧ lb = { columns := cols, items := pre ++
        { cells := partialCells cols.length (key :: rest) col, data := some key,
          selected := false } :: post }))
    (key :: rest).length
    (fun col (lb : wxListCtrl) => do
        let text ← wxArrayString.Item (key :: rest) col
        let width ← DEFAULT_COL_WIDTHS_at col
        let info : wxListItem :=
          { m_itemId := pre.length
            m_col := col
            m_text := text
            m_width := width
            m_mask := wxLIST_MASK_TEXT ||| wxLIST_MASK_WIDTH }
        if col = 0 then
          let info := { info with m_data := some text, m_mask := info.m_mask ||| wxLIST_MASK_DATA }
          pure (lb.InsertItem info).1
        else
          pure (lb.SetItem info))
    (by
      intro col t hcol hP
      obtain ⟨text, htext⟩ : ∃ text, (key :: rest)[col]? = some text :=
        ⟨(key :: rest)[col], by simp [List.getElem?_eq_getElem hcol]⟩
      obtain ⟨w, hw⟩ := DEFAULT_COL_WIDTHS_at_ok col (by omega)
      dsimp only
      rw [Item_eq_ok _ _ _ htext, hw]
      rcases hP with ⟨h0, hP⟩ | ⟨h1, hP⟩
      · subst h0
        subst hP
        have hkey : text = key := by simpa using htext.symm
        subst hkey
        refine ⟨_, rfl, Or.inr ⟨le_refl _, ?_⟩⟩
        rw [InsertItem_eq _ _ pre.length rfl (by simp)]
        simp [wxListLine.apply, hasMask_twd_text, hasMask_twd_data, setCell, freshLine,
          partialCells_one _ text rest]
      · subst hP
        have hne : col ≠ 0 := by omega
        refine ⟨_, by simp [hne, bind, Except.bind, pure, Except.pure]; rfl, Or.inr ⟨by omega, ?_⟩⟩
        rw [SetItem_eq _ _ _ _ _ rfl]
        simp [wxListLine.apply, hasMask_tw_text, hasMask_tw_data, setCell,
          partialCells_set _ _ _ _ htext])
    (key :: rest).length 0 { columns := cols, items := pre ++ post }
    (by simp) (Or.inl ⟨rfl, rfl⟩)
  rw [ht]
  rcases hP with ⟨h0, _⟩ | ⟨_, hP⟩
  · simp at h0
  · rw [hP, partialCells_full]
    simp [rowLine]

theorem unsigned_index (row p : Nat) (h : row + p < 2 ^ 32) :
    unsigned ((row : Int) + (p : Int)) = row + p := by
  unfold unsigned
  omega

/-- The row loop of `InsertItems` for rows with one or two cells each. -/
theorem InsertItems_loop (cols : List (String × Int)) (L : List wxListLine)
    (rows : List wxArrayString) (p : Nat) (hp : p ≤ L.length)
    (hrows : ∀ r ∈ rows, 1 ≤ r.length ∧ r.length ≤ 2)
    (hsize : L.length + rows.length ≤ 2 ^ 32) :
    forLoop 0 rows.length (fun row (lb : wxListCtrl) => do
      let cells ← vectorAt rows row
      forLoop 0 cells.length (fun col (lb : wxListCtrl) => do
        let text ← cells.Item col
        let width ← DEFAULT_COL_WIDTHS_at col
        let info : wxListItem :=
          { m_itemId := unsigned (row + (p : Int))
            m_col := col
            m_text := text
            m_width := width
            m_mask := wxLIST_MASK_TEXT ||| wxLIST_MASK_WIDTH }
        if col = 0 then
          let info := { info with m_data := some text, m_mask := info.m_mask ||| wxLIST_MASK_DATA }
          pure (lb.InsertItem info).1
        else
          pure (lb.SetItem info)) lb) ({ columns := cols, items := L } : wxListCtrl)
    = .ok { columns := cols
            items := L.take p ++ rows.map (rowLine cols.length) ++ L.drop p } := by
  obtain ⟨t, ht, hP⟩ := forLoop_inv
    (fun row (lb : wxListCtrl) => lb = { columns := cols
                                         items := (L.take p ++
        (rows.take row).map (rowLine cols.length) ++ L.drop p) })
    rows.length
    (fun row (lb : wxListCtrl) => do
      let cells ← vectorAt rows row
      forLoop 0 cells.length (fun col (lb : wxListCtrl) => do
        let text ← cells.Item col
        let width ← DEFAULT_COL_WIDTHS_at col
        let info : wxListItem :=
          { m_itemId := unsigned (row + (p : Int))
            m_col := col
            m_text := text
            m_width := width
            m_mask := wxLIST_MASK_TEXT ||| wxLIST_MASK_WIDTH }
        if col = 0 then
          let info := { info with m_data := some text, m_mask := info.m_mask ||| wxLIST_MASK_DATA }
          pure (lb.InsertItem info).1
        else
          pure (lb.SetItem info)) lb)
    (by
      intro row t hrow hP
      subst hP
      dsimp only
      rw [vectorAt_eq_ok _ _ hrow]
      have hr := hrows _ (List.getElem_mem hrow)
      obtain ⟨key, rest, hkr⟩ : ∃ key rest, rows[row] = key :: rest := by
        cases hc : rows[row] with
        | nil => rw [hc] at hr; simp at hr
        | cons key rest => exact ⟨key, rest, rfl⟩
      rw [hkr] at hr
      simp only [bind, Except.bind, hkr]
      rw [unsigned_index row p (by omega)]
      have h := InsertItems_row cols (L.take p ++ (rows.take row).map (rowLine cols.length))
        (L.drop p) key rest hr.2 (row + p)
        (by simp [List.length_take, Nat.min_eq_left hp, Nat.min_eq_left (Nat.le_of_lt hrow)]; omega)
      simp only [bind, Except.bind, pure, Except.pure, List.append_assoc] at h ⊢
      refine ⟨_, h, ?_⟩
      rw [List.take_succ, List.getElem?_eq_getElem hrow, hkr]
      simp)
    rows.length 0 { columns := cols, items := L }
    (by simp) (by simp)
  rw [ht, hP, List.take_length]

/-- What `InsertItems` computes for rows with one or two cells each and a position inside the
list. -/
theorem InsertItems_eq (wx : wxWidgets) (d : EDA_LIST_DIALOG δ) (rows : List wxArrayString)
    (p : Nat) (hp : p ≤ d.m_listBox.items.length)
    (hrows : ∀ r ∈ rows, 1 ≤ r.length ∧ r.length ≤ 2)
    (hsize : d.m_listBox.items.length + rows.length ≤ 2 ^ 32) :
    InsertItems wx d rows p = .ok { d with m_listBox :=
      { columns := d.m_listBox.columns
        items := sortedIf wx d.m_sortList
          (d.m_listBox.items.take p ++ rows.map (rowLine d.m_listBox.columns.length) ++
            d.m_listBox.items.drop p) } } := by
  have h := InsertItems_loop d.m_listBox.columns d.m_listBox.items rows p hp hrows hsize
  simp only [bind, Except.bind, pure, Except.pure] at h
  simp only [InsertItems, bind, Except.bind, pure, Except.pure, h]
  cases hs : d.m_sortList <;> simp [sortedIf, sortList]

theorem rowLine_cells (n : Nat) (r : wxArrayString) (h : r.length = n) :
    (rowLine n r).cells = r := by
  subst h
  apply List.ext_getElem
  · simp [rowLine]
  · intro i h1 h2
    simp [rowLine, List.getD, List.getElem?_eq_getElem h2]

/-! ## Construction and preselection -/

/-- The preselection loop of `initDialog` from row `k` on, over a table whose rows all have a
key cell: it selects the first row keyed `sel`, if there is one, and returns. -/
theorem preselect_loop (table : List wxArrayString) (sel : String)
    (hrows : ∀ r ∈ table, r ≠ []) (lb : wxListCtrl) :
    ∀ (m k : Nat), k + m = table.length →
      forBreak (fun row (lb : wxListCtrl) => do
        let cells ← vectorAt table row
        let key ← cells.Item 0
        if key = sel then
          pure ((lb.SetItemStateSelected row).EnsureVisible row, true)
        else
          pure (lb, false)) (List.range' k m) lb
      = .ok (match firstKeyed sel (table.drop k) with
             | some j => lb.SetItemStateSelected (k + j)
             | none => lb) := by
  intro m
  induction m with
  | zero =>
    intro k hk
    have : table.drop k = [] := List.drop_eq_nil_of_le (by omega)
    simp [forBreak, this, firstKeyed, pure, Except.pure]
  | succ m ih =>
    intro k hk
    have hlt : k < table.length := by omega
    have hne := hrows _ (List.getElem_mem hlt)
    obtain ⟨key, rest, hkr⟩ : ∃ key rest, table[k] = key :: rest := by
      cases hc : table[k] with
      | nil => exact absurd hc hne
      | cons key rest => exact ⟨key, rest, rfl⟩
    rw [List.range'_succ, List.drop_eq_getElem_cons hlt, hkr]
    unfold forBreak
    simp only [vectorAt_eq_ok _ _ hlt, hkr, bind, Except.bind,
      Item_eq_ok (key :: rest) 0 key (by simp)]
    by_cases hs : key = sel
    · simp [hs, firstKeyed, pure, Except.pure, wxListCtrl.EnsureVisible]
    · have h := ih (k + 1) (by omega)
      simp only [bind, Except.bind, pure, Except.pure] at h
      simp only [hs, if_false, pure, Except.pure, h, firstKeyed, List.head?_cons,
        Option.some.injEq]
      cases hf : firstKeyed sel (List.drop (k + 1) table) with
      | none => simp
      | some j => simp [Nat.add_assoc, Nat.add_comm 1 j]

theorem firstKeyed_none (sel : String) (table : List wxArrayString)
    (h : ∀ r ∈ table, r.head? ≠ some sel) : firstKeyed sel table = none := by
  induction table with
  | nil => rfl
  | cons r rs ih =>
    simp [firstKeyed, h r (List.mem_cons_self _ _),
      ih (fun x hx => h x (List.mem_cons_of_mem _ hx))]

/-- A table with a row keyed `sel` splits at the first such row. -/
theorem firstKeyed_some (sel : String) (table : List wxArrayString)
    (h : ∃ r ∈ table, r.head? = some sel) :
    ∃ t1 r t2, table = t1 ++ r :: t2 ∧ r.head? = some sel ∧
      (∀ x ∈ t1, x.head? ≠ some sel) ∧ firstKeyed sel table = some t1.length := by
  induction table with
  | nil => simp at h
  | cons x xs ih =>
    by_cases hx : x.head? = some sel
    · exact ⟨[], x, xs, rfl, hx, by simp, by simp [firstKeyed, hx]⟩
    · have h2 : ∃ r ∈ xs, r.head? = some sel := by
        obtain ⟨r, hr, hr2⟩ := h
        rcases List.mem_cons.mp hr with rfl | hr
        · exact absurd hr2 hx
        · exact ⟨r, hr, hr2⟩
      obtain ⟨t1, r, t2, ht, hr, hall, hf⟩ := ih h2
      refine ⟨x :: t1, r, t2, by simp [ht], hr, ?_, by simp [firstKeyed, hx, hf]⟩
      intro y hy
      rcases List.mem_cons.mp hy with rfl | hy
      · exact hx
      · exact hall y hy

/-- The header loop of `initDialog` for at most two headers, on a control without lines. -/
theorem header_loop (headers : wxArrayString) (hn : headers.length ≤ 2) :
    ∃ cols : List (String × Int), cols.length = headers.length ∧
      forLoop 0 headers.length (fun i (lb : wxListCtrl) => do
        let heading ← headers.Item i
        let width ← DEFAULT_COL_WIDTHS_at i
        pure (lb.InsertColumn i heading width)) ({ columns := [], items := [] } : wxListCtrl)
      = .ok { columns := cols, items := [] } := by
  obtain ⟨t, ht, hP⟩ := forLoop_inv
    (fun i (lb : wxListCtrl) => lb.items = [] ∧ lb.columns.length = i)
    headers.length
    (fun i (lb : wxListCtrl) => do
        let heading ← headers.Item i
        let width ← DEFAULT_COL_WIDTHS_at i
        pure (lb.InsertColumn i heading width))
    (by
      intro i t hi hP
      obtain ⟨text, htext⟩ : ∃ text, headers[i]? = some text :=
        ⟨headers[i], by simp [List.getElem?_eq_getElem hi]⟩
      obtain ⟨w, hw⟩ := DEFAULT_COL_WIDTHS_at_ok i (by omega)
      dsimp only
      rw [Item_eq_ok _ _ _ htext, hw]
      refine ⟨_, rfl, ?_, ?_⟩
      · simp [wxListCtrl.InsertColumn, hP.1]
      · simp [wxListCtrl.InsertColumn, hP.2])
    headers.length 0 { columns := [], items := [] } (by simp) ⟨rfl, rfl⟩
  refine ⟨t.columns, hP.2, ?_⟩
  rw [ht]
  congr 1
  cases t
  simp_all

/-- What the constructor builds from at most two headers and rows of one or two cells. -/
theorem create_eq (wx : wxWidgets) (headers : wxArrayString) (table : List wxArrayString)
    (sel : String) (cb : Option (String → δ → String × δ)) (data : δ) (sort : Bool)
    (hn : headers.length ≤ 2) (hrows : ∀ r ∈ table, 1 ≤ r.length ∧ r.length ≤ 2)
    (hsize : table.length ≤ 2 ^ 32) :
    ∃ cols : List (String × Int), cols.length = headers.length ∧
      create wx headers table sel cb data sort = .ok
        { m_sortList := sort
          m_cb_func := cb
          m_cb_data := data
          m_itemsListCp := table
          m_listBox :=
            { columns := cols, items := createdLines wx sort headers.length table sel }
          m_filterBox := ""
          m_messages := ""
          m_messagesShown := cb.isSome
          m_staticTextMsgShown := cb.isSome
          m_returnCode := none } := by
  obtain ⟨cols, hcols, hloop⟩ := header_loop headers hn
  refine ⟨cols, hcols, ?_⟩
  have hne : ∀ r ∈ table, r ≠ [] := by
    intro r hr h
    have := (hrows r hr).1
    simp [h] at this
  have hins := InsertItems_eq wx
    ({ base sort cb data table with m_listBox := { columns := cols, items := [] } })
    table 0 (Nat.zero_le _) hrows (by simpa using hsize)
  have hsel := fun lb => preselect_loop table sel hne lb table.length 0 (by simp)
  simp only [bind, Except.bind, pure, Except.pure] at hloop hsel
  simp only [create, initDialog, base, bind, Except.bind, pure, Except.pure, hloop]
  simp only [base, Nat.cast_zero] at hins
  rw [hins]
  cases cb <;>
    simp only [Option.isNone_none, Option.isNone_some, if_true, Bool.false_eq_true, if_false,
      List.range_eq_range', hsel, List.drop_zero, Nat.zero_add, List.take_nil,
      List.drop_nil, List.nil_append, List.append_nil, hcols, createdLines] <;>
    by_cases hs : sel = "" <;> cases hf : firstKeyed sel table <;>
    simp [hs, hf, wxListCtrl.SetItemStateSelected]

theorem createdLines_unselected (wx : wxWidgets) (hwx : SortItemsContract wx) (sort : Bool)
    (n : Nat) (table : List wxArrayString) (sel : String)
    (h : sel = "" ∨ ∀ r ∈ table, r.head? ≠ some sel) :
    ∀ line ∈ createdLines wx sort n table sel, line.selected = false := by
  have hbase : ∀ line ∈ sortedIf wx sort (table.map (rowLine n)), line.selected = false := by
    intro line hline
    have := (sortedIf_perm wx hwx sort _ (rowLines_unselected _ _)).subset hline
    obtain ⟨r, _, rfl⟩ := List.mem_map.mp this
    rfl
  rcases h with h | h
  · simpa [createdLines, h] using hbase
  · by_cases hs : sel = ""
    · simpa [createdLines, hs] using hbase
    · simpa [createdLines, hs, firstKeyed_none sel table h] using hbase

theorem createdLines_selected (wx : wxWidgets) (n : Nat) (t1 t2 : List wxArrayString)
    (r : wxArrayString) (sel : String) (hs : sel ≠ "") (hr : r.head? = some sel)
    (h1 : ∀ x ∈ t1, x.head? ≠ some sel) :
    createdLines wx false n (t1 ++ r :: t2) sel =
      t1.map (rowLine n) ++ { rowLine n r with selected := true } :: t2.map (rowLine n) := by
  obtain ⟨u1, q, u2, hsplit, hq, hu1, hf⟩ := firstKeyed_some sel (t1 ++ r :: t2)
    ⟨r, by simp, hr⟩
  have hlen : u1.length = t1.length := by
    rcases Nat.lt_trichotomy u1.length t1.length with hlt | heq | hgt
    · exfalso
      have hq2 : (t1 ++ r :: t2)[u1.length]? = some q := by
        rw [hsplit, List.getElem?_append_right (Nat.le_refl _)]; simp
      rw [List.getElem?_append_left hlt] at hq2
      exact h1 q (List.getElem?_mem hq2) hq
    · exact heq
    · exfalso
      have hr2 : (u1 ++ q :: u2)[t1.length]? = some r := by
        rw [← hsplit, List.getElem?_append_right (Nat.le_refl _)]; simp
      rw [List.getElem?_append_left hgt] at hr2
      exact hu1 r (List.getElem?_mem hr2) hr
  have hupd := updateLine_append (fun line => { line with selected := true })
    (t1.map (rowLine n)) (rowLine n r) (t2.map (rowLine n))
  simp only [List.length_map] at hupd
  simp [createdLines, hs, hf, hlen, sortedIf, hupd]

/-! ## Reads stay in range -/

/-- `InsertItems` returns when no row has more than two cells, and changes the list control
only. -/
theorem InsertItems_ok (wx : wxWidgets) (d : EDA_LIST_DIALOG δ) (rows : List wxArrayString)
    (p : Int) (hrows : ∀ r ∈ rows, r.length ≤ 2) :
    ∃ lb, InsertItems wx d rows p = .ok { d with m_listBox := lb } := by
  obtain ⟨t, ht, -⟩ := forLoop_inv (fun _ (_ : wxListCtrl) => True) rows.length
    (fun row (lb : wxListCtrl) => do
      let cells ← vectorAt rows row
      forLoop 0 cells.length (fun col (lb : wxListCtrl) => do
        let text ← cells.Item col
        let width ← DEFAULT_COL_WIDTHS_at col
        let info : wxListItem :=
          { m_itemId := unsigned (row + p)
            m_col := col
            m_text := text
            m_width := width
            m_mask := wxLIST_MASK_TEXT ||| wxLIST_MASK_WIDTH }
        if col = 0 then
          let info := { info with m_data := some text, m_mask := info.m_mask ||| wxLIST_MASK_DATA }
          pure (lb.InsertItem info).1
        else
          pure (lb.SetItem info)) lb)
    (by
      intro row t hrow _
      dsimp only
      rw [vectorAt_eq_ok _ _ hrow]
      have hr := hrows _ (List.getElem_mem hrow)
      obtain ⟨u, hu, -⟩ := forLoop_inv (fun _ (_ : wxListCtrl) => True) rows[row].length
        (fun col (lb : wxListCtrl) => do
          let text ← rows[row].Item col
          let width ← DEFAULT_COL_WIDTHS_at col
          let info : wxListItem :=
            { m_itemId := unsigned (row + p)
              m_col := col
              m_text := text
              m_width := width
              m_mask := wxLIST_MASK_TEXT ||| wxLIST_MASK_WIDTH }
          if col = 0 then
            let info := { info with m_data := some text, m_mask := info.m_mask ||| wxLIST_MASK_DATA }
            pure (lb.InsertItem info).1
          else
            pure (lb.SetItem info))
        (by
          intro col t hcol _
          obtain ⟨text, htext⟩ : ∃ text, rows[row][col]? = some text :=
            ⟨rows[row][col], by simp [List.getElem?_eq_getElem hcol]⟩
          obtain ⟨w, hw⟩ := DEFAULT_COL_WIDTHS_at_ok col (by omega)
          dsimp only
          rw [Item_eq_ok _ _ _ htext, hw]
          by_cases h0 : col = 0
          · exact ⟨_, by simp [h0, bind, Except.bind, pure, Except.pure]; rfl, trivial⟩
          · exact ⟨_, by simp [h0, bind, Except.bind, pure, Except.pure]; rfl, trivial⟩)
        rows[row].length 0 t (by simp) trivial
      exact ⟨u, hu, trivial⟩)
    rows.length 0 d.m_listBox (by simp) trivial
  simp only [bind, Except.bind, pure, Except.pure] at ht
  cases hs : d.m_sortList
  · exact ⟨t, by simp [InsertItems, bind, Except.bind, pure, Except.pure, ht, hs]⟩
  · exact ⟨(sortList wx { d with m_listBox := t }).m_listBox,
      by simp [InsertItems, bind, Except.bind, pure, Except.pure, ht, hs, sortList]⟩

/-- The constructor returns for at most two headers and rows of one or two cells; the dialog
it returns refers to the table it was given. -/
theorem create_ok (wx : wxWidgets) (headers : wxArrayString) (table : List wxArrayString)
    (sel : String) (cb : Option (String → δ → String × δ)) (data : δ) (sort : Bool)
    (hn : headers.length ≤ 2) (hrows : ∀ r ∈ table, 1 ≤ r.length ∧ r.length ≤ 2) :
    ∃ d, create wx headers table sel cb data sort = .ok d ∧ d.m_itemsListCp = table := by
  obtain ⟨cols, -, hloop⟩ := header_loop headers hn
  have hne : ∀ r ∈ table, r ≠ [] := by
    intro r hr h
    have := (hrows r hr).1
    simp [h] at this
  obtain ⟨lb, hins⟩ := InsertItems_ok wx
    ({ base sort cb data table with m_listBox := { columns := cols, items := [] } })
    table 0 (fun r hr => (hrows r hr).2)
  have hsel := fun lb => preselect_loop table sel hne lb table.length 0 (by simp)
  simp only [bind, Except.bind, pure, Except.pure] at hloop hsel
  simp only [create, initDialog, base, bind, Except.bind, pure, Except.pure, hloop]
  simp only [base] at hins
  rw [hins]
  cases cb <;>
    simp only [Option.isNone_none, Option.isNone_some, if_true, Bool.false_eq_true, if_false,
      List.range_eq_range', hsel] <;>
    by_cases hs : sel = "" <;> simp [hs]

/-- Filter text changes and sorts return on a table whose rows all have a key cell, and
leave the table reference alone. -/
theorem run_keepsFilter_ok (wx : wxWidgets) (table : List wxArrayString)
    (hne : ∀ r ∈ table, r ≠ []) (ops : List Op) (hops : ∀ op ∈ ops, op.keepsFilter = true) :
    ∀ d : EDA_LIST_DIALOG δ, d.m_itemsListCp = table →
      ∃ e, run wx ops d = .ok e ∧ e.m_itemsListCp = table := by
  induction ops with
  | nil => intro d hd; exact ⟨d, rfl, hd⟩
  | cons op ops ih =>
    intro d hd
    have hrest := ih (fun o ho => hops o (List.mem_cons_of_mem _ ho))
    have hop := hops op (List.mem_cons_self _ _)
    cases op with
    | typeFilter text =>
      have h := textChangeInFilterBox_eq wx { d with m_filterBox := text }
        (by simpa [hd] using hne)
      obtain ⟨e1, h1, h1t⟩ : ∃ e1, textChangeInFilterBox wx { d with m_filterBox := text } =
          .ok e1 ∧ e1.m_itemsListCp = table := ⟨_, h, hd⟩
      obtain ⟨e, he, het⟩ := hrest e1 h1t
      exact ⟨e, by simp only [run, Op.apply, typeFilter, h1]; exact he, het⟩
    | sortList =>
      obtain ⟨e, he, het⟩ := hrest (sortList wx d) hd
      exact ⟨e, by simp only [run, Op.apply, pure, Except.pure]; exact he, het⟩
    | Append r => simp [Op.keepsFilter] at hop
    | InsertItems rows p => simp [Op.keepsFilter] at hop

/-! ## The filtered-subset invariant -/

theorem mem_updateLine (f : wxListLine → wxListLine) (i : Nat) (l : List wxListLine)
    (y : wxListLine) (h : y ∈ updateLine f i l) : y ∈ l ∨ ∃ x ∈ l, y = f x := by
  induction l generalizing i with
  | nil => simp [updateLine] at h
  | cons a l ih =>
    cases i with
    | zero =>
      simp only [updateLine, List.mem_cons] at h
      rcases h with h | h
      · exact Or.inr ⟨a, List.mem_cons_self _ _, h⟩
      · exact Or.inl (List.mem_cons_of_mem _ h)
    | succ i =>
      simp only [updateLine, List.mem_cons] at h
      rcases h with h | h
      · exact Or.inl (h ▸ List.mem_cons_self _ _)
      · rcases ih i h with h | ⟨x, hx, hy⟩
        · exact Or.inl (List.mem_cons_of_mem _ h)
        · exact Or.inr ⟨x, List.mem_cons_of_mem _ hx, hy⟩

/-- Every line of a freshly constructed dialog is, the selection flag aside, the line of a
table row. -/
theorem createdLines_rows (wx : wxWidgets) (hwx : SortItemsContract wx) (sort : Bool) (n : Nat)
    (table : List wxArrayString) (sel : String) :
    ∀ line ∈ createdLines wx sort n table sel, ∃ r ∈ table,
      line.cells = (rowLine n r).cells ∧ line.data = r.head? := by
  have hbase : ∀ line ∈ sortedIf wx sort (table.map (rowLine n)), ∃ r ∈ table,
      line.cells = (rowLine n r).cells ∧ line.data = r.head? := by
    intro line hline
    have := (sortedIf_perm wx hwx sort _ (rowLines_unselected _ _)).subset hline
    obtain ⟨r, hr, rfl⟩ := List.mem_map.mp this
    exact ⟨r, hr, rfl, rfl⟩
  intro line hline
  unfold createdLines at hline
  by_cases hs : sel = ""
  · simp only [hs, if_true] at hline
    exact hbase line hline
  · simp only [hs, if_false] at hline
    cases hf : firstKeyed sel table with
    | none =>
      simp only [hf] at hline
      exact hbase line hline
    | some j =>
      simp only [hf] at hline
      rcases mem_updateLine _ _ _ _ hline with h | ⟨x, hx, rfl⟩
      · exact hbase line h
      · exact hbase x hx

/-- Filter text changes and sorts return on a table whose rows all have a key cell and keep the
displayed rows a filtered subset of the table. -/
theorem run_keepsFilter_subset (wx : wxWidgets) (hwx : SortItemsContract wx)
    (table : List wxArrayString) (hne : ∀ r ∈ table, r ≠ []) (ops : List Op)
    (hops : ∀ op ∈ ops, op.keepsFilter = true) :
    ∀ d : EDA_LIST_DIALOG δ, d.m_itemsListCp = table → FilteredSubset wx d →
      ∃ e, run wx ops d = .ok e ∧ e.m_itemsListCp = table ∧ FilteredSubset wx e := by
  induction ops with
  | nil => intro d hd hinv; exact ⟨d, rfl, hd, hinv⟩
  | cons op ops ih =>
    intro d hd hinv
    have hrest := ih (fun o ho => hops o (List.mem_cons_of_mem _ ho))
    have hop := hops op (List.mem_cons_self _ _)
    cases op with
    | typeFilter text =>
      have h := textChangeInFilterBox_eq wx { d with m_filterBox := text }
        (by simpa [hd] using hne)
      obtain ⟨e1, h1, h1t, h1inv⟩ : ∃ e1, textChangeInFilterBox wx { d with m_filterBox := text }
          = .ok e1 ∧ e1.m_itemsListCp = table ∧ FilteredSubset wx e1 := by
        refine ⟨_, h, hd, ?_⟩
        intro line hline
        have := (sortedIf_perm wx hwx _ _ (rowLines_unselected _ _)).subset hline
        obtain ⟨r, hr, rfl⟩ := List.mem_map.mp this
        exact ⟨r, hr, rfl, rfl⟩
      obtain ⟨e, he, het⟩ := hrest e1 h1t h1inv
      exact ⟨e, by simp only [run, Op.apply, typeFilter, h1]; exact he, het⟩
    | sortList =>
      obtain ⟨e, he, het⟩ := hrest (sortList wx d) hd (by
        intro line hline
        obtain ⟨y, hy, hc, hdata⟩ := SortItems_mem wx hwx _ _ line hline
        obtain ⟨r, hr, hr1, hr2⟩ := hinv y hy
        exact ⟨r, hr, hc.trans hr1, hdata.trans hr2⟩)
      exact ⟨e, by simp only [run, Op.apply, pure, Except.pure]; exact he, het⟩
    | Append r => simp [Op.keepsFilter] at hop
    | InsertItems rows p => simp [Op.keepsFilter] at hop

theorem wildcard_star_star (text : List Char) : wildcard ['*', '*'] text = true := by
  simp only [wildcard, if_true, List.any_eq_true, List.mem_tails]
  refine ⟨text, List.suffix_refl _, [], List.nil_suffix, ?_⟩
  simp

/-- In the reference toolkit the pattern built from the empty filter text matches every
text. -/
theorem wxReference_empty_filter (s : String) :
    wxReference.Matches s ("*" ++ wxReference.MakeLower "" ++ "*") = true :=
  wildcard_star_star s.data

/-! ## Back-references -/

theorem keyLinked_inserted (n : Nat) (info : wxListItem)
    (hmask : info.m_mask = wxLIST_MASK_TEXT ||| wxLIST_MASK_WIDTH ||| wxLIST_MASK_DATA)
    (hcol : info.m_col = 0) (hdata : info.m_data = some info.m_text) :
    keyLinked n (wxListLine.apply info (freshLine n)) := by
  constructor
  · simp [wxListLine.apply, hmask, hasMask_twd_text, setCell, hcol, freshLine]
  · intro hn
    simp only [wxListLine.apply, hmask, hasMask_twd_text, hasMask_twd_data, setCell, hcol,
      freshLine, keyText, hdata, le_refl, if_true, Int.toNat_zero]
    simp [List.getD, List.getElem?_set, hn]

theorem keyLinked_set (n : Nat) (info : wxListItem) (line : wxListLine)
    (hmask : info.m_mask = wxLIST_MASK_TEXT ||| wxLIST_MASK_WIDTH)
    (hcol : 1 ≤ info.m_col) (h : keyLinked n line) :
    keyLinked n (wxListLine.apply info line) := by
  have h0 : (0 : Int) ≤ info.m_col := by omega
  have hne : info.m_col.toNat ≠ 0 := by omega
  constructor
  · simp [wxListLine.apply, hmask, hasMask_tw_text, setCell, h0, h.1]
  · intro hn
    simp only [wxListLine.apply, hmask, hasMask_tw_text, hasMask_tw_data, setCell, h0,
      if_true, keyText, Bool.false_eq_true, if_false]
    rw [h.2 hn]
    simp [keyText, List.getD, List.getElem?_set_ne hne]

theorem Linked_InsertItem (lb : wxListCtrl) (info : wxListItem)
    (hmask : info.m_mask = wxLIST_MASK_TEXT ||| wxLIST_MASK_WIDTH ||| wxLIST_MASK_DATA)
    (hcol : info.m_col = 0) (hdata : info.m_data = some info.m_text) (h : Linked lb) :
    (lb.InsertItem info).1.columns = lb.columns ∧ Linked (lb.InsertItem info).1 := by
  unfold wxListCtrl.InsertItem
  by_cases hid : info.m_itemId < 0
  · simp [hid, h]
  · simp only [hid, if_false]
    refine ⟨trivial, ?_⟩
    intro line hline
    simp only [List.mem_append, List.mem_cons] at hline
    rcases hline with hline | rfl | hline
    · exact h line (List.mem_of_mem_take hline)
    · exact keyLinked_inserted _ info hmask hcol hdata
    · exact h line (List.mem_of_mem_drop hline)

theorem Linked_SetItem (lb : wxListCtrl) (info : wxListItem)
    (hmask : info.m_mask = wxLIST_MASK_TEXT ||| wxLIST_MASK_WIDTH)
    (hcol : 1 ≤ info.m_col) (h : Linked lb) :
    (lb.SetItem info).columns = lb.columns ∧ Linked (lb.SetItem info) := by
  unfold wxListCtrl.SetItem
  by_cases hid : 0 ≤ info.m_itemId
  · simp only [hid, if_true]
    refine ⟨trivial, ?_⟩
    intro line hline
    rcases mem_updateLine _ _ _ _ hline with hl | ⟨x, hx, rfl⟩
    · exact h line hl
    · exact keyLinked_set _ info x hmask hcol (h x hx)
  · simp [hid, h]

theorem Linked_select (lb : wxListCtrl) (row : Nat) (h : Linked lb) :
    (lb.SetItemStateSelected row).columns = lb.columns ∧
      Linked (lb.SetItemStateSelected row) := by
  refine ⟨rfl, ?_⟩
  intro line hline
  rcases mem_updateLine _ _ _ _ hline with hl | ⟨x, hx, rfl⟩
  · exact h line hl
  · exact h x hx

theorem bind_eq_ok {α β : Type} (x : Except Fault α) (f : α → Except Fault β) (b : β)
    (h : (x >>= f) = .ok b) : ∃ a, x = .ok a ∧ f a = .ok b := by
  cases x with
  | error e => simp [bind, Except.bind] at h
  | ok a => exact ⟨a, rfl, h⟩

theorem Linked_sortList (wx : wxWidgets) (hwx : SortItemsContract wx) (d : EDA_LIST_DIALOG δ)
    (h : Linked d.m_listBox) : Linked (sortList wx d).m_listBox := by
  intro line hline
  obtain ⟨y, hy, hc, hdata⟩ := SortItems_mem wx hwx _ _ line hline
  have hk := h y hy
  exact ⟨by rw [hc]; exact hk.1, fun hn => by
    rw [hdata, hk.2 hn]; simp only [keyText, hc]⟩

/-- `InsertItems` keeps the back-references sound, whatever rows it is given. -/
theorem InsertItems_linked (wx : wxWidgets) (hwx : SortItemsContract wx)
    (d e : EDA_LIST_DIALOG δ) (rows : List wxArrayString) (p : Int)
    (h : Linked d.m_listBox) (he : InsertItems wx d rows p = .ok e) :
    Linked e.m_listBox ∧ e.m_itemsListCp = d.m_itemsListCp := by
  unfold InsertItems at he
  obtain ⟨lb, hlb, hrest⟩ := bind_eq_ok _ _ _ he
  have hlinked : Linked lb := by
    refine forLoop_preserves Linked rows.length _ ?_ rows.length 0 d.m_listBox lb (by simp) h hlb
    intro row t u _ ht hu
    obtain ⟨cells, _, hu⟩ := bind_eq_ok _ _ _ hu
    refine forLoop_preserves Linked cells.length _ ?_ cells.length 0 t u (by simp) ht hu
    intro col t u _ ht hu
    obtain ⟨text, _, hu⟩ := bind_eq_ok _ _ _ hu
    obtain ⟨width, _, hu⟩ := bind_eq_ok _ _ _ hu
    by_cases hc : col = 0
    · simp only [hc, if_true, pure, Except.pure, Except.ok.injEq] at hu
      rw [← hu]
      exact (Linked_InsertItem t _ rfl (by simp) rfl ht).2
    · simp only [hc, if_false, pure, Except.pure, Except.ok.injEq] at hu
      rw [← hu]
      exact (Linked_SetItem t _ rfl (by simp; omega) ht).2
  cases hs : d.m_sortList
  · simp only [hs, Bool.false_eq_true, if_false, pure, Except.pure, Except.ok.injEq] at hrest
    rw [← hrest]
    exact ⟨hlinked, rfl⟩
  · simp only [hs, if_true, pure, Except.pure, Except.ok.injEq] at hrest
    rw [← hrest]
    exact ⟨Linked_sortList wx hwx _ hlinked, rfl⟩

/-- `Append` keeps the back-references sound. -/
theorem Append_linked (d e : EDA_LIST_DIALOG δ) (r : wxArrayString)
    (h : Linked d.m_listBox) (he : EDA_LIST_DIALOG.Append d r = .ok e) :
    Linked e.m_listBox ∧ e.m_itemsListCp = d.m_itemsListCp := by
  cases r with
  | nil => simp [EDA_LIST_DIALOG.Append, wxArrayString.Item, bind, Except.bind, throw,
      throwThe, MonadExceptOf.throw] at he
  | cons key rest =>
    rw [Append_eq] at he
    simp only [Except.ok.injEq] at he
    rw [← he]
    refine ⟨?_, rfl⟩
    intro line hline
    simp only [List.mem_append, List.mem_singleton] at hline
    rcases hline with hline | rfl
    · exact h line hline
    · constructor
      · simp [rowLine]
      · intro hn
        simp [rowLine, keyText, List.getD, hn]

/-- Partial-correctness rule for loops with `break`. -/
theorem forBreak_preserves {σ : Type} (P : σ → Prop)
    (body : Nat → σ → Except Fault (σ × Bool))
    (hstep : ∀ i t u b, P t → body i t = .ok (u, b) → P u) :
    ∀ (is : List Nat) (s t : σ), P s → forBreak body is s = .ok t → P t := by
  intro is
  induction is with
  | nil =>
    intro s t hP ht
    simp only [forBreak, pure, Except.pure, Except.ok.injEq] at ht
    exact ht ▸ hP
  | cons i is ih =>
    intro s t hP ht
    unfold forBreak at ht
    cases hb : body i s with
    | error f => simp [hb] at ht
    | ok r =>
      obtain ⟨u, b⟩ := r
      have hu := hstep i s u b hP hb
      cases b with
      | true =>
        simp only [hb, pure, Except.pure, Except.ok.injEq] at ht
        exact ht ▸ hu
      | false =>
        simp only [hb] at ht
        exact ih u t hu ht

/-- `textChangeInFilterBox` leaves sound back-references behind. -/
theorem textChangeInFilterBox_linked (wx : wxWidgets) (hwx : SortItemsContract wx)
    (d e : EDA_LIST_DIALOG δ) (he : textChangeInFilterBox wx d = .ok e) :
    Linked e.m_listBox ∧ e.m_itemsListCp = d.m_itemsListCp := by
  unfold textChangeInFilterBox at he
  obtain ⟨d1, hd1, hrest⟩ := bind_eq_ok _ _ _ he
  have h1 : Linked d1.m_listBox ∧ d1.m_itemsListCp = d.m_itemsListCp := by
    refine forLoop_preserves
      (fun t : EDA_LIST_DIALOG δ => Linked t.m_listBox ∧ t.m_itemsListCp = d.m_itemsListCp)
      d.m_itemsListCp.length _ ?_ d.m_itemsListCp.length 0 _ d1 (by simp) ?_ hd1
    · intro i t u _ ht hu
      obtain ⟨cells, _, hu⟩ := bind_eq_ok _ _ _ hu
      obtain ⟨itemName, _, hu⟩ := bind_eq_ok _ _ _ hu
      split at hu
      · have := Append_linked t u cells ht.1 hu
        exact ⟨this.1, this.2.trans ht.2⟩
      · simp only [pure, Except.pure, Except.ok.injEq] at hu
        exact hu ▸ ht
    · refine ⟨?_, rfl⟩
      intro line hline
      simp [wxListCtrl.DeleteAllItems] at hline
  cases hs : d1.m_sortList
  · simp only [hs, Bool.false_eq_true, if_false, pure, Except.pure, Except.ok.injEq] at hrest
    exact hrest ▸ h1
  · simp only [hs, if_true, pure, Except.pure, Except.ok.injEq] at hrest
    rw [← hrest]
    exact ⟨Linked_sortList wx hwx _ h1.1, h1.2⟩

/-- The preselection step of `initDialog` keeps the back-references sound. -/
theorem preselect_linked (d2 d : EDA_LIST_DIALOG δ) (sel : String)
    (h2 : Linked d2.m_listBox)
    (hd : (if sel ≠ "" then do
        let lb ← forBreak (fun row (lb : wxListCtrl) => do
          let cells ← vectorAt d2.m_itemsListCp row
          let key ← cells.Item 0
          if key = sel then
            pure ((lb.SetItemStateSelected row).EnsureVisible row, true)
          else
            pure (lb, false)) (List.range d2.m_itemsListCp.length) d2.m_listBox
        pure { d2 with m_listBox := lb }
      else
        pure d2) = .ok d) : Linked d.m_listBox := by
  split at hd
  · obtain ⟨lb2, hlb2, hd⟩ := bind_eq_ok _ _ _ hd
    simp only [pure, Except.pure, Except.ok.injEq] at hd
    rw [← hd]
    refine forBreak_preserves Linked _ ?_ _ _ lb2 h2 hlb2
    intro row t u b ht hu
    obtain ⟨cells, _, hu⟩ := bind_eq_ok _ _ _ hu
    obtain ⟨key, _, hu⟩ := bind_eq_ok _ _ _ hu
    split at hu
    · simp only [pure, Except.pure, Except.ok.injEq, Prod.mk.injEq] at hu
      rw [← hu.1]
      exact (Linked_select t row ht).2
    · simp only [pure, Except.pure, Except.ok.injEq, Prod.mk.injEq] at hu
      exact hu.1 ▸ ht
  · simp only [pure, Except.pure, Except.ok.injEq] at hd
    exact hd ▸ h2

/-- The constructor leaves sound back-references behind. -/
theorem create_linked (wx : wxWidgets) (hwx : SortItemsContract wx) (headers : wxArrayString)
    (table : List wxArrayString) (sel : String) (cb : Option (String → δ → String × δ))
    (data : δ) (sort : Bool) (d : EDA_LIST_DIALOG δ)
    (hd : create wx headers table sel cb data sort = .ok d) : Linked d.m_listBox := by
  unfold create initDialog at hd
  obtain ⟨lb, hlb, hd⟩ := bind_eq_ok _ _ _ hd
  obtain ⟨d1, hd1, hd⟩ := bind_eq_ok _ _ _ hd
  have h0 : lb.items = [] := by
    refine forLoop_preserves (fun t : wxListCtrl => t.items = []) headers.length _ ?_
      headers.length 0 _ lb (by simp) rfl hlb
    intro i t u _ ht hu
    obtain ⟨heading, _, hu⟩ := bind_eq_ok _ _ _ hu
    obtain ⟨width, _, hu⟩ := bind_eq_ok _ _ _ hu
    simp only [pure, Except.pure, Except.ok.injEq] at hu
    rw [← hu]
    simp [wxListCtrl.InsertColumn, ht]
  have h1 := (InsertItems_linked wx hwx _ d1 _ _ (by
    intro line hline
    simp [h0] at hline) hd1).1
  by_cases hcb : d1.m_cb_func.isNone = true
  · simp only [hcb, if_true] at hd
    exact preselect_linked
      { d1 with m_messagesShown := false, m_staticTextMsgShown := false } d sel h1 hd
  · simp only [hcb, if_false] at hd
    exact preselect_linked d1 d sel h1 hd

/-- Every sequence of operations keeps the back-references sound. -/
theorem run_linked (wx : wxWidgets) (hwx : SortItemsContract wx) (ops : List Op) :
    ∀ d e : EDA_LIST_DIALOG δ, Linked d.m_listBox → run wx ops d = .ok e →
      Linked e.m_listBox := by
  induction ops with
  | nil =>
    intro d e h he
    simp only [run, pure, Except.pure, Except.ok.injEq] at he
    exact he ▸ h
  | cons op ops ih =>
    intro d e h he
    unfold run at he
    cases hop : op.apply wx d with
    | error f => simp [hop] at he
    | ok d1 =>
      simp only [hop] at he
      refine ih d1 e ?_ he
      cases op with
      | typeFilter text => exact (textChangeInFilterBox_linked wx hwx _ d1 hop).1
      | Append r => exact (Append_linked d d1 r h hop).1
      | InsertItems rows p => exact (InsertItems_linked wx hwx d d1 rows p h hop).1
      | sortList =>
        simp only [Op.apply, pure, Except.pure, Except.ok.injEq] at hop
        exact hop ▸ Linked_sortList wx hwx d h

/-- On lines with sound back-references the callback compares the column-0 texts. -/
theorem compare_keyLinked (n : Nat) (a b : wxListLine) (ha : keyLinked n a) (hb : keyLinked n b)
    (h : myCompareFunction a.data b.data 0 ≤ 0) : keyLe (keyText a) (keyText b) := by
  rcases Nat.eq_zero_or_pos n with hn | hn
  · have ha0 : a.cells = [] := List.length_eq_zero.mp (by rw [ha.1, hn])
    have hb0 : b.cells = [] := List.length_eq_zero.mp (by rw [hb.1, hn])
    simp only [keyLe, keyText, ha0, hb0]
    decide
  · rw [ha.2 hn, hb.2 hn] at h
    exact h

/-- After `sortList` on lines with sound back-references the lines are, selection flags
aside, rearranged, and their column-0 texts ascend. -/
theorem sortList_sorted (wx : wxWidgets) (hwx : SortItemsContract wx) (d : EDA_LIST_DIALOG δ)
    (h : Linked d.m_listBox) :
    ((sortList wx d).m_listBox.items.map wxListLine.unselect).Perm
      (d.m_listBox.items.map wxListLine.unselect) ∧
    (sortList wx d).m_listBox.items.Pairwise (fun a b => keyLe (keyText a) (keyText b)) := by
  refine ⟨hwx.perm _ _, ?_⟩
  have hs := hwx.sorted _ myCompareFunction_ordering d.m_listBox.items
  have hl := Linked_sortList wx hwx d h
  refine List.Pairwise.imp_of_mem ?_ hs
  intro a b ha hb hab
  exact compare_keyLinked _ a b (hl a ha) (hl b hb) hab

/-! ## A second toolkit sort -/

/-- Sorting the reversed list with insertion sort also meets the contract of `SortItems`. -/
theorem wxReversing_contract : SortItemsContract wxReversing where
  perm := fun _ l =>
    ((List.perm_insertionSort _ l.reverse).trans (List.reverse_perm l)).map _
  selects_nothing := fun _ l _ hx _ =>
    ((List.perm_insertionSort _ l.reverse).trans (List.reverse_perm l)).subset hx
  sorted := fun cmp hcmp l => by
    haveI : IsTotal wxListLine (fun a b => cmp a.data b.data ≤ 0) :=
      ⟨fun a b => hcmp.total _ _⟩
    haveI : IsTrans wxListLine (fun a b => cmp a.data b.data ≤ 0) :=
      ⟨fun a b c => hcmp.trans _ _ _⟩
    exact List.sorted_insertionSort _ l.reverse

/-! ## Main theorems, by claim of the specification -/

/-- C1. For every Item Table whose rows all have a key cell and every filter text,
`textChangeInFilterBox` returns and the control then shows exactly the lines of the rows whose
lower-cased key cell matches `*` + lower-cased filter text + `*`, each once (a permutation of
the matching rows), in table order when sorting is off; with the empty filter text, whose pattern
matches every text, it shows every row. The table, the filter text and the columns are left
alone. -/
theorem textChangeInFilterBox_shows_matching (wx : wxWidgets) (hwx : SortItemsContract wx)
    (hstar : ∀ s, wx.Matches s ("*" ++ wx.MakeLower "" ++ "*") = true)
    (d : EDA_LIST_DIALOG δ) (hrows : ∀ r ∈ d.m_itemsListCp, r ≠ []) :
    ∃ e, textChangeInFilterBox wx d = .ok e ∧
      e.m_itemsListCp = d.m_itemsListCp ∧ e.m_filterBox = d.m_filterBox ∧
      e.m_listBox.columns = d.m_listBox.columns ∧
      e.m_listBox.items.Perm
        ((matching wx d.m_itemsListCp d.m_filterBox).map (rowLine d.m_listBox.columns.length)) ∧
      (d.m_sortList = false → e.m_listBox.items =
        (matching wx d.m_itemsListCp d.m_filterBox).map (rowLine d.m_listBox.columns.length)) ∧
      (d.m_filterBox = "" →
        e.m_listBox.items.Perm (d.m_itemsListCp.map (rowLine d.m_listBox.columns.length))) ∧
      (∀ r, r ∈ matching wx d.m_itemsListCp d.m_filterBox ↔
        r ∈ d.m_itemsListCp ∧
          wx.Matches (wx.MakeLower (r.headD "")) ("*" ++ wx.MakeLower d.m_filterBox ++ "*")
            = true) := by
  refine ⟨_, textChangeInFilterBox_eq wx d hrows, rfl, rfl, rfl,
    sortedIf_perm wx hwx _ _ (rowLines_unselected _ _), ?_, ?_, ?_⟩
  · intro hs
    simp [sortedIf, hs]
  · intro hf
    have : matching wx d.m_itemsListCp d.m_filterBox = d.m_itemsListCp := by
      simp [matching, hf, hstar]
    simpa [this] using sortedIf_perm wx hwx d.m_sortList
      ((matching wx d.m_itemsListCp d.m_filterBox).map (rowLine d.m_listBox.columns.length))
      (rowLines_unselected _ _)
  · intro r
    simp [matching]

/-- Witness for C1: the sample dialog with the filter text `IT`, which lets the rows `Item10`
and `item2` through, and with the empty filter text, which lets every row through. -/
theorem textChangeInFilterBox_shows_matching_witness :
    (∃ e, textChangeInFilterBox wxReference (sampleDialog false none) = .ok e ∧
      e.m_itemsListCp = sampleTable ∧ e.m_filterBox = "IT" ∧
      e.m_listBox.columns = (sampleDialog false none).m_listBox.columns ∧
      e.m_listBox.items.Perm
        ((matching wxReference sampleTable "IT").map (rowLine 2)) ∧
      ((sampleDialog false none).m_sortList = false → e.m_listBox.items =
        (matching wxReference sampleTable "IT").map (rowLine 2)) ∧
      ((sampleDialog false none).m_filterBox = "" →
        e.m_listBox.items.Perm (sampleTable.map (rowLine 2))) ∧
      (∀ r, r ∈ matching wxReference sampleTable "IT" ↔
        r ∈ sampleTable ∧
          wxReference.Matches (wxReference.MakeLower (r.headD ""))
            ("*" ++ wxReference.MakeLower "IT" ++ "*") = true)) ∧
    (matching wxReference sampleTable "IT").map (rowLine 2) =
      [ { cells := ["Item10", "part"], data := some "Item10", selected := false },
        { cells := ["item2", "part"], data := some "item2", selected := false } ] ∧
    (∃ e, textChangeInFilterBox wxReference sampleDialogUnfiltered = .ok e ∧
      e.m_listBox.items.Perm (sampleTable.map (rowLine 2))) :=
  ⟨textChangeInFilterBox_shows_matching wxReference wxReference_contract
      wxReference_empty_filter (sampleDialog false none) (by decide),
    by decide,
    (textChangeInFilterBox_shows_matching wxReference wxReference_contract
      wxReference_empty_filter sampleDialogUnfiltered (by decide)).imp
      fun _ h => ⟨h.1, h.2.2.2.2.2.2.1 rfl⟩⟩

/-- C3. `GetTextSelection( c )` (column in `int` range, column count in `int` range) is the
empty string when no line is selected, and when `c` is negative or not below the column count;
otherwise it is the text stored in cell `c` of the first selected line. It is a total function
of the dialog state and yields no new state. -/
theorem GetTextSelection_cases (d : EDA_LIST_DIALOG δ) (c : Int)
    (hc : -2 ^ 31 ≤ c ∧ c < 2 ^ 31) (hn : d.m_listBox.columns.length < 2 ^ 31) :
    ((∀ x ∈ d.m_listBox.items, x.selected = false) → d.GetTextSelection c = "") ∧
    (c < 0 ∨ d.m_listBox.GetColumnCount ≤ c → d.GetTextSelection c = "") ∧
    (∀ l1 line l2, d.m_listBox.items = l1 ++ line :: l2 →
      (∀ x ∈ l1, x.selected = false) → line.selected = true →
      0 ≤ c → c < d.m_listBox.GetColumnCount →
      d.GetTextSelection c = line.cells.getD c.toNat "" ∧
      ∀ text, line.cells[c.toNat]? = some text → d.GetTextSelection c = text) := by
  refine ⟨GetTextSelection_none d c, GetTextSelection_outside d c hc hn, ?_⟩
  intro l1 line l2 hitems h1 h2 h0 hcn
  have h := GetTextSelection_selected d c hn l1 l2 line hitems h1 h2 h0 hcn
  refine ⟨h, ?_⟩
  intro text ht
  rw [h]
  simp [List.getD, ht]

/-- Witness for C3: in the sample dialog, whose second line is selected, column 1 gives the
second cell of that line, and the columns 2 and -1 give the empty string. -/
theorem GetTextSelection_cases_witness :
    (sampleDialog false none).GetTextSelection 1 = "part" ∧
    (sampleDialog false none).GetTextSelection 2 = "" ∧
    (sampleDialog false none).GetTextSelection (-1) = "" :=
  ⟨((GetTextSelection_cases (sampleDialog false none) 1 (by decide) (by decide)).2.2
      [{ cells := ["banana", "fruit"], data := some "banana", selected := false }]
      { cells := ["Item10", "part"], data := some "Item10", selected := true }
      [{ cells := ["item2", "part"], data := some "item2", selected := false },
       { cells := ["Apple", "fruit"], data := some "Apple", selected := false }]
      rfl (by decide) rfl (by decide) (by decide)).1,
    (GetTextSelection_cases (sampleDialog false none) 2 (by decide) (by decide)).2.1
      (Or.inr (by decide)),
    (GetTextSelection_cases (sampleDialog false none) (-1) (by decide) (by decide)).2.1
      (Or.inl (by decide))⟩

/-- C6 (counterexample). The dialog constructed over the sample table with the preselection
`Item10` has that row selected; after `onCancelClick`, and after `onClose`, the return code is
the cancel code and `GetTextSelection( 0 )` still returns `Item10`, not the empty string. -/
theorem cancel_leaves_selection_readable :
    ∃ d, create wxReference ["Name", "Kind"] sampleTable "Item10"
        (none : Option (String → Nat → String × Nat)) 0 false = .ok d ∧
      d.GetTextSelection 0 = "Item10" ∧
      d.onCancelClick.m_returnCode = some wxID_CANCEL ∧
      d.onCancelClick.GetTextSelection 0 = "Item10" ∧
      d.onClose.m_returnCode = some wxID_CANCEL ∧
      d.onClose.GetTextSelection 0 = "Item10" :=
  ⟨_, rfl, by decide, by decide, by decide, by decide, by decide⟩

/-- C6 (amended). `onCancelClick` and `onClose` end the modal loop with the cancel code, never
the OK code, and change nothing else: the state afterwards is the state before with only the
return code set, so the table, the filter text, the message pane, the callback, the sort flag
and the list control with its selection are as before, and `GetTextSelection` returns for every
column what it returned before the close. -/
theorem cancel_close_return_code (d : EDA_LIST_DIALOG δ) (c : Int) :
    d.onCancelClick = { d with m_returnCode := some wxID_CANCEL } ∧
    d.onClose = { d with m_returnCode := some wxID_CANCEL } ∧
    d.onCancelClick.m_returnCode = some wxID_CANCEL ∧
    d.onClose.m_returnCode = some wxID_CANCEL ∧
    d.onCancelClick.m_returnCode ≠ some wxID_OK ∧
    d.onClose.m_returnCode ≠ some wxID_OK ∧
    d.onCancelClick.m_listBox = d.m_listBox ∧
    d.onClose.m_listBox = d.m_listBox ∧
    d.onCancelClick.GetTextSelection c = d.GetTextSelection c ∧
    d.onClose.GetTextSelection c = d.GetTextSelection c := by
  refine ⟨rfl, rfl, rfl, rfl, ?_, ?_, rfl, rfl, rfl, rfl⟩ <;>
    simp [onCancelClick, onClose, EndModal, wxID_CANCEL, wxID_OK]

/-- C9 (counterexample). On the dialog constructed over the sample table with
`sampleCallback` and the preselection `Item10`, a first selection event leaves `about Item10` in
the message pane; a second one leaves `about Item10` again, not the previous content followed
by the new text. The callback has then run twice, once per event. -/
theorem selection_event_replaces_messages :
    ∃ d, create wxReference ["Name", "Kind"] sampleTable "Item10" (some sampleCallback) 0 false
        = .ok d ∧
      d.onListItemSelected.m_messages = "about Item10" ∧
      d.onListItemSelected.onListItemSelected.m_messages = "about Item10" ∧
      d.onListItemSelected.onListItemSelected.m_messages ≠ "about Item10" ++ "about Item10" ∧
      d.onListItemSelected.onListItemSelected.m_cb_data = 2 :=
  ⟨_, rfl, by decide, by decide, by decide, by decide⟩

/-- C9 (amended). With a callback present, `onListItemSelected` runs it once on
`GetTextSelection( 0 )` (the key text of the first selected line, when there is a column) and
the callback's data; afterwards the message pane holds exactly the text the callback produced,
the previous content being cleared, and the data is the callback's. With no callback nothing
changes. -/
theorem onListItemSelected_effect (d : EDA_LIST_DIALOG δ) :
    (∀ cb, d.m_cb_func = some cb →
      d.onListItemSelected.m_messages = (cb (d.GetTextSelection 0) d.m_cb_data).1 ∧
      d.onListItemSelected.m_cb_data = (cb (d.GetTextSelection 0) d.m_cb_data).2 ∧
      d.onListItemSelected.m_listBox = d.m_listBox) ∧
    (d.m_cb_func = none → d.onListItemSelected = d) ∧
    (∀ l1 line l2, d.m_listBox.items = l1 ++ line :: l2 →
      (∀ x ∈ l1, x.selected = false) → line.selected = true →
      0 < d.m_listBox.columns.length → d.m_listBox.columns.length < 2 ^ 31 →
      d.GetTextSelection 0 = keyText line) := by
  refine ⟨?_, ?_, ?_⟩
  · intro cb hcb
    simp [onListItemSelected, hcb, GetTextSelection]
  · intro hcb
    simp [onListItemSelected, hcb]
  · intro l1 line l2 hitems h1 h2 hpos hn
    have h := GetTextSelection_selected d 0 hn l1 l2 line hitems h1 h2 (le_refl _)
      (by exact_mod_cast hpos)
    simpa [keyText] using h

/-- C8 (counterexample). In the dialog constructed without headers a row of no cells has
exactly column-count cells, yet `InsertItems` inserts no line for it, while the claimed result
`L[0..0) ++ rows ++ L[0..)` has one line. And in a control with three columns a row of three
cells makes `InsertItems` read `DEFAULT_COL_WIDTHS[ 2 ]`. -/
theorem InsertItems_outside_one_or_two_columns :
    (∃ d, create wxReference [] [] "" (none : Option (String → Nat → String × Nat)) 0 false
        = .ok d ∧
      d.m_listBox.columns = [] ∧ d.m_listBox.items = [] ∧
      shown (InsertItems wxReference d [[]] 0) = some [] ∧
      d.m_listBox.items.take 0 ++ [[]].map (rowLine 0) ++ d.m_listBox.items.drop 0 ≠ []) ∧
    threeColumnDialog.m_listBox.columns.length = 3 ∧
    faultOf (InsertItems wxReference threeColumnDialog [["a", "b", "c"]] 0) =
      some (Fault.colWidths 2) :=
  ⟨⟨_, rfl, by decide, by decide, by decide, by decide⟩, by decide, by decide⟩

/-- C8 (amended). In a control with one or two columns holding lines `L`, for a position
`p ≤ |L|` and rows of exactly column-count cells (fewer than 2^32 lines in all), `InsertItems`
returns, and with sorting off the control then holds `L[0..p) ++ rows ++ L[p..)`: each inserted
line carries the cells of its row unchanged and points at its key; with sorting on it holds that
list as sorted by the toolkit with `myCompareFunction`. -/
theorem InsertItems_places_rows (wx : wxWidgets) (d : EDA_LIST_DIALOG δ)
    (rows : List wxArrayString) (p : Nat)
    (hn : 1 ≤ d.m_listBox.columns.length ∧ d.m_listBox.columns.length ≤ 2)
    (hp : p ≤ d.m_listBox.items.length)
    (hrows : ∀ r ∈ rows, r.length = d.m_listBox.columns.length)
    (hsize : d.m_listBox.items.length + rows.length ≤ 2 ^ 32) :
    ∃ e, InsertItems wx d rows p = .ok e ∧
      e.m_listBox.columns = d.m_listBox.columns ∧
      (d.m_sortList = false → e.m_listBox.items =
        d.m_listBox.items.take p ++ rows.map (rowLine d.m_listBox.columns.length) ++
          d.m_listBox.items.drop p) ∧
      (d.m_sortList = true → e.m_listBox.items =
        wx.SortItems (fun a b => myCompareFunction a b 0)
          (d.m_listBox.items.take p ++ rows.map (rowLine d.m_listBox.columns.length) ++
            d.m_listBox.items.drop p)) ∧
      (∀ r ∈ rows, (rowLine d.m_listBox.columns.length r).cells = r ∧
        (rowLine d.m_listBox.columns.length r).data = r.head? ∧
        (rowLine d.m_listBox.columns.length r).selected = false) := by
  refine ⟨_, InsertItems_eq wx d rows p hp (fun r hr => by rw [hrows r hr]; exact hn) hsize,
    rfl, ?_, ?_, ?_⟩
  · intro hs
    simp [sortedIf, hs]
  · intro hs
    simp [sortedIf, hs]
  · intro r hr
    exact ⟨rowLine_cells _ r (hrows r hr), rfl, rfl⟩

/-- Witness for C8 (amended): the row `kiwi` inserted at position 1 of the sample dialog
stands between the first line and the former second line. -/
theorem InsertItems_places_rows_witness :
    ∃ e, InsertItems wxReference (sampleDialog false none) [["kiwi", "fruit"]] (1 : Nat) = .ok e ∧
      e.m_listBox.items =
        [ { cells := ["banana", "fruit"], data := some "banana", selected := false },
          { cells := ["kiwi", "fruit"], data := some "kiwi", selected := false },
          { cells := ["Item10", "part"], data := some "Item10", selected := true },
          { cells := ["item2", "part"], data := some "item2", selected := false },
          { cells := ["Apple", "fruit"], data := some "Apple", selected := false } ] :=
  (InsertItems_places_rows wxReference (sampleDialog false none) [["kiwi", "fruit"]] 1
    (by decide) (by decide) (by decide) (by decide)).imp
    fun _ h => ⟨h.1, (h.2.2.1 rfl).trans (by decide)⟩

/-- C2 (counterexample). With the empty preselection key and a row whose key is empty no line
is selected. With sorting enabled the table `b`, `a` is shown as `a`, `b`; the preselection `b`
is found at table row 0 and the line at position 0 is selected, so `GetTextSelection( 0 )`
returns `a`. And on a table with a row of no cells the lookup reads cell 0 of that row. -/
theorem preselection_misses :
    (shown (create wxReference ["Name"] [[""], ["a"]] "" none 0 false)).map
      (List.map fun line => (keyText line, line.selected)) = some [("", false), ("a", false)] ∧
    (shown (create wxReference ["Name"] [["b"], ["a"]] "b" none 0 true)).map
      (List.map fun line => (keyText line, line.selected)) = some [("a", true), ("b", false)] ∧
    selectionText (create wxReference ["Name"] [["b"], ["a"]] "b" none 0 true) 0 = some "a" ∧
    faultOf (create wxReference ["Name"] [["b"], []] "a" none 0 false) =
      some (Fault.cell 0) := by
  decide

/-- C2 (amended). For one or two headers, rows of exactly that many cells and fewer than 2^32
rows, the constructor returns. With sorting off and a non-empty preselection key that is the key
of some row, exactly one line is selected, its key text is the preselection key, and
`GetTextSelection( 0 )` returns that key. With an empty preselection key, or one that is no row's
key, no line is selected, for either value of the sort flag. -/
theorem create_preselects (wx : wxWidgets) (hwx : SortItemsContract wx)
    (headers : wxArrayString) (table : List wxArrayString) (sel : String)
    (cb : Option (String → δ → String × δ)) (data : δ) (sort : Bool)
    (hn : 1 ≤ headers.length ∧ headers.length ≤ 2)
    (hrows : ∀ r ∈ table, r.length = headers.length) (hsize : table.length ≤ 2 ^ 32) :
    ∃ d, create wx headers table sel cb data sort = .ok d ∧
      (sort = false → sel ≠ "" → (∃ r ∈ table, r.head? = some sel) →
        d.GetTextSelection 0 = sel ∧
        ∃ l1 line l2, d.m_listBox.items = l1 ++ line :: l2 ∧ line.selected = true ∧
          keyText line = sel ∧ line.data = some sel ∧
          (∀ x ∈ l1, x.selected = false) ∧ (∀ x ∈ l2, x.selected = false)) ∧
      (sel = "" ∨ (∀ r ∈ table, r.head? ≠ some sel) →
        ∀ line ∈ d.m_listBox.items, line.selected = false) := by
  obtain ⟨cols, hcols, hcreate⟩ := create_eq wx headers table sel cb data sort hn.2
    (fun r hr => by rw [hrows r hr]; exact hn) hsize
  refine ⟨_, hcreate, ?_, ?_⟩
  · intro hsort hs hex
    subst hsort
    obtain ⟨t1, r, t2, hsplit, hr, ht1, _⟩ := firstKeyed_some sel table hex
    have hlines := createdLines_selected wx headers.length t1 t2 r sel hs hr ht1
    rw [← hsplit] at hlines
    have hrlen : r.length = headers.length := hrows r (by rw [hsplit]; simp)
    have hkey : keyText { rowLine headers.length r with selected := true } = sel := by
      have hc := rowLine_cells headers.length r hrlen
      cases r with
      | nil => simp at hr
      | cons k rest =>
        simp only [List.head?_cons, Option.some.injEq] at hr
        subst hr
        simp [keyText, hc]
    have hunsel : ∀ (t : List wxArrayString), ∀ x ∈ t.map (rowLine headers.length),
        x.selected = false := by
      intro t x hx
      obtain ⟨q, _, rfl⟩ := List.mem_map.mp hx
      rfl
    refine ⟨?_, _, _, _, hlines, rfl, hkey, hr, hunsel t1, hunsel t2⟩
    have h := GetTextSelection_selected
      ({ m_sortList := false, m_cb_func := cb, m_cb_data := data, m_itemsListCp := table,
         m_listBox := { columns := cols,
                        items := createdLines wx false headers.length table sel },
         m_filterBox := "", m_messages := "", m_messagesShown := cb.isSome,
         m_staticTextMsgShown := cb.isSome, m_returnCode := none } : EDA_LIST_DIALOG δ)
      0 (by simp only [hcols]; omega) _ _ _ hlines (hunsel t1) rfl (le_refl _)
      (by simp only [hcols]; exact_mod_cast hn.1)
    rw [h]
    exact hkey
  · intro h
    exact createdLines_unselected wx hwx sort headers.length table sel h

/-- Witness for C2 (amended): over the sample table under two headers, unsorted, the
preselection `item2` leaves `GetTextSelection( 0 )` at `item2`; sorted, the preselection `nope`
leaves no line selected. -/
theorem create_preselects_witness :
    (∃ d, create wxReference ["Name", "Kind"] sampleTable "item2"
        (none : Option (String → Nat → String × Nat)) 0 false = .ok d ∧
      d.GetTextSelection 0 = "item2") ∧
    (∃ d, create wxReference ["Name", "Kind"] sampleTable "nope"
        (none : Option (String → Nat → String × Nat)) 0 true = .ok d ∧
      ∀ line ∈ d.m_listBox.items, line.selected = false) :=
  ⟨(create_preselects wxReference wxReference_contract ["Name", "Kind"] sampleTable "item2"
      none 0 false (by decide) (by decide) (by decide)).imp
      fun _ h => ⟨h.1, (h.2.1 rfl (by decide) ⟨["item2", "part"], by decide, rfl⟩).1⟩,
    (create_preselects wxReference wxReference_contract ["Name", "Kind"] sampleTable "nope"
      none 0 true (by decide) (by decide) (by decide)).imp
      fun _ h => ⟨h.1, h.2.2 (Or.inr (by decide))⟩⟩

/-- C10. With one or two headers and rows of exactly that many cells, the constructor (header
loop, `InsertItems`, preselection lookup) and every later filter text change return without an
out-of-range read of `DEFAULT_COL_WIDTHS` or of a row. The precondition is needed: a third
header and a row with a third cell read `DEFAULT_COL_WIDTHS[ 2 ]`, and a row without cells is
read at cell 0 by the preselection lookup and by a filter text change. -/
theorem wellformed_reads_in_range (wx : wxWidgets) (headers : wxArrayString)
    (table : List wxArrayString) (sel : String) (cb : Option (String → δ → String × δ))
    (data : δ) (sort : Bool) (texts : List String)
    (hn : headers.length = 1 ∨ headers.length = 2)
    (hrows : ∀ r ∈ table, r.length = headers.length) :
    (∃ d, create wx headers table sel cb data sort = .ok d ∧
      ∃ e, run wx (texts.map Op.typeFilter) d = .ok e) ∧
    faultOf (create wxReference ["A", "B", "C"] [] "" none 0 false) =
      some (Fault.colWidths 2) ∧
    faultOf (create wxReference ["A", "B"] [["a", "b", "c"]] "" none 0 false) =
      some (Fault.colWidths 2) ∧
    faultOf (create wxReference ["A"] [[]] "a" none 0 false) = some (Fault.cell 0) ∧
    (∃ d, create wxReference ["A"] [[]] "" none 0 false = .ok d ∧
      faultOf (typeFilter wxReference "a" d) = some (Fault.cell 0)) := by
  have hr : ∀ r ∈ table, 1 ≤ r.length ∧ r.length ≤ 2 := by
    intro r h
    rw [hrows r h]
    omega
  obtain ⟨d, hd, hdt⟩ := create_ok wx headers table sel cb data sort (by omega) hr
  obtain ⟨e, he, -⟩ := run_keepsFilter_ok wx table
    (fun r h hnil => by have := (hr r h).1; simp [hnil] at this)
    (texts.map Op.typeFilter) (by simp [Op.keepsFilter]) d hdt
  refine ⟨⟨d, hd, e, he⟩, by decide, by decide, by decide, ?_⟩
  exact ⟨_, rfl, by decide⟩

/-- Witness for C10: the sample table under two headers, followed by three filter texts. -/
theorem wellformed_reads_in_range_witness :
    (∃ d, create wxReference ["Name", "Kind"] sampleTable "item2" (some sampleCallback) 0 true
        = .ok d ∧
      ∃ e, run wxReference (["it", "", "xyz"].map Op.typeFilter) d = .ok e) ∧
    faultOf (create wxReference ["A", "B", "C"] [] "" none 0 false) =
      some (Fault.colWidths 2) ∧
    faultOf (create wxReference ["A", "B"] [["a", "b", "c"]] "" none 0 false) =
      some (Fault.colWidths 2) ∧
    faultOf (create wxReference ["A"] [[]] "a" none 0 false) = some (Fault.cell 0) ∧
    (∃ d, create wxReference ["A"] [[]] "" none 0 false = .ok d ∧
      faultOf (typeFilter wxReference "a" d) = some (Fault.cell 0)) :=
  wellformed_reads_in_range wxReference ["Name", "Kind"] sampleTable "item2"
    (some sampleCallback) 0 true ["it", "", "xyz"] (by decide) (by decide)

/-- C7 (counterexample). On a dialog constructed over the one-row table `a`: `Append` of the
row `zzz`, which is not in the table, shows it; and after the filter text `x` has emptied the
list, `InsertItems` of the table row `a` shows a row that does not match the filter. Neither
state is a filtered subset of the table. Nor is the dialog constructed with two headers over a
table that starts with a row of no cells: the second cell of the row `a`, `b` is not shown. -/
theorem append_and_insert_bypass_filter :
    (∃ d e, create wxReference ["Name"] [["a"]] "" (none : Option (String → Nat → String × Nat))
        0 false = .ok d ∧
      run wxReference [Op.Append ["zzz"]] d = .ok e ∧
      e.m_itemsListCp = [["a"]] ∧ e.m_listBox.items.map keyText = ["a", "zzz"] ∧
      ¬ FilteredSubset wxReference e) ∧
    (∃ d e, create wxReference ["Name"] [["a"]] "" (none : Option (String → Nat → String × Nat))
        0 false = .ok d ∧
      run wxReference [Op.typeFilter "x", Op.InsertItems [["a"]] 0] d = .ok e ∧
      e.m_filterBox = "x" ∧ e.m_listBox.items.map keyText = ["a"] ∧
      ¬ FilteredSubset wxReference e) ∧
    (∃ d, create wxReference ["Name", "Kind"] [[], ["a", "b"]] ""
        (none : Option (String → Nat → String × Nat)) 0 false = .ok d ∧
      d.m_listBox.items.map (fun line => line.cells) = [["a", ""]] ∧
      ¬ FilteredSubset wxReference d) := by
  exact ⟨⟨_, _, rfl, rfl, by decide, by decide, by decide⟩,
    ⟨_, _, rfl, rfl, by decide, by decide, by decide⟩,
    ⟨_, rfl, by decide, by decide⟩⟩

/-- C7 (amended). For a toolkit whose empty-filter pattern matches every text, one or two
headers, rows of exactly that many cells and fewer than 2^32 rows: the constructed dialog shows
a filtered subset of the Item Table, and so does every state reached from it by filter text
changes and sorts, all of which return. (`Append` and `InsertItems` show the rows they are
given and consult neither the table nor the filter.) -/
theorem filter_and_sort_keep_subset (wx : wxWidgets) (hwx : SortItemsContract wx)
    (hstar : ∀ s, wx.Matches s ("*" ++ wx.MakeLower "" ++ "*") = true)
    (headers : wxArrayString) (table : List wxArrayString) (sel : String)
    (cb : Option (String → δ → String × δ)) (data : δ) (sort : Bool)
    (hn : 1 ≤ headers.length ∧ headers.length ≤ 2)
    (hrows : ∀ r ∈ table, r.length = headers.length) (hsize : table.length ≤ 2 ^ 32)
    (ops : List Op) (hops : ∀ op ∈ ops, op.keepsFilter = true) :
    ∃ d, create wx headers table sel cb data sort = .ok d ∧ FilteredSubset wx d ∧
      ∃ e, run wx ops d = .ok e ∧ e.m_itemsListCp = table ∧ FilteredSubset wx e := by
  have hr : ∀ r ∈ table, 1 ≤ r.length ∧ r.length ≤ 2 := by
    intro r h
    rw [hrows r h]
    exact hn
  obtain ⟨cols, hcols, hcreate⟩ := create_eq wx headers table sel cb data sort hn.2 hr hsize
  have hall : matching wx table "" = table := by simp [matching, hstar]
  have hinv : FilteredSubset wx
      ({ m_sortList := sort, m_cb_func := cb, m_cb_data := data, m_itemsListCp := table,
         m_listBox := { columns := cols,
                        items := createdLines wx sort headers.length table sel },
         m_filterBox := "", m_messages := "", m_messagesShown := cb.isSome,
         m_staticTextMsgShown := cb.isSome, m_returnCode := none } : EDA_LIST_DIALOG δ) := by
    intro line hline
    obtain ⟨r, hr1, hr2, hr3⟩ := createdLines_rows wx hwx sort headers.length table sel line hline
    exact ⟨r, by simpa [hall] using hr1, by simpa [hcols] using hr2, hr3⟩
  obtain ⟨e, he, het, heinv⟩ := run_keepsFilter_subset wx hwx table
    (fun r h hnil => by have := (hr r h).1; simp [hnil] at this) ops hops _ rfl hinv
  exact ⟨_, hcreate, hinv, e, he, het, heinv⟩

/-- Witness for C7 (amended): the sample table, sorted, then two filter text changes with a
sort in between. -/
theorem filter_and_sort_keep_subset_witness :
    ∃ d, create wxReference ["Name", "Kind"] sampleTable "item2" (some sampleCallback) 0 true
        = .ok d ∧ FilteredSubset wxReference d ∧
      ∃ e, run wxReference [Op.typeFilter "IT", Op.sortList, Op.typeFilter "a"] d = .ok e ∧
        e.m_itemsListCp = sampleTable ∧ FilteredSubset wxReference e :=
  filter_and_sort_keep_subset wxReference wxReference_contract wxReference_empty_filter
    ["Name", "Kind"] sampleTable "item2" (some sampleCallback) 0 true (by decide) (by decide)
    (by decide) [Op.typeFilter "IT", Op.sortList, Op.typeFilter "a"] (by decide)

/-- C4. In every state reached from construction by filter text changes, `Append`,
`InsertItems` and sorts, every line's back-reference points at a string equal to its column-0
text; hence after `sortList` the lines are, selection flags aside, a permutation of the lines
before and their column-0 texts ascend under the case-insensitive, numeric-aware comparison. In that comparison `item2`
comes strictly before `item10` and `Apple` strictly before `banana`, so after appending a row
keyed `Apple` and sorting, the `Apple` line is shown and no `banana` line stands before an
`Apple` line. -/
theorem sortList_orders_keys (wx : wxWidgets) (hwx : SortItemsContract wx)
    (headers : wxArrayString) (table : List wxArrayString) (sel : String)
    (cb : Option (String → δ → String × δ)) (data : δ) (sort : Bool) (ops : List Op)
    (d0 d : EDA_LIST_DIALOG δ) (h0 : create wx headers table sel cb data sort = .ok d0)
    (hrun : run wx ops d0 = .ok d) :
    (∀ line ∈ d.m_listBox.items, 0 < d.m_listBox.columns.length →
      line.data = some (keyText line)) ∧
    ((sortList wx d).m_listBox.items.map wxListLine.unselect).Perm
      (d.m_listBox.items.map wxListLine.unselect) ∧
    (sortList wx d).m_listBox.items.Pairwise (fun a b => StrNumCmp (keyText a) (keyText b) ≤ 0) ∧
    StrNumCmp "item2" "item10" < 0 ∧ 0 < StrNumCmp "item10" "item2" ∧
    StrNumCmp "Apple" "banana" < 0 ∧ 0 < StrNumCmp "banana" "Apple" ∧
    (∀ rest e, EDA_LIST_DIALOG.Append d ("Apple" :: rest) = .ok e →
      (0 < d.m_listBox.columns.length →
        ∃ y ∈ (sortList wx e).m_listBox.items, keyText y = "Apple") ∧
      ∀ x y, keyText x = "banana" → keyText y = "Apple" →
        ¬ List.Sublist [x, y] (sortList wx e).m_listBox.items) := by
  have hl : Linked d.m_listBox :=
    run_linked wx hwx ops d0 d (create_linked wx hwx headers table sel cb data sort d0 h0) hrun
  have hs := sortList_sorted wx hwx d hl
  refine ⟨fun line hline hn => (hl line hline).2 hn, hs.1, hs.2, by decide, by decide, by decide,
    by decide, ?_⟩
  intro rest e he
  have hle := (Append_linked d e _ hl he).1
  have hse := sortList_sorted wx hwx e hle
  rw [Append_eq] at he
  simp only [Except.ok.injEq] at he
  refine ⟨?_, ?_⟩
  · intro hn
    obtain ⟨x, hx, hc, -⟩ := SortItems_mem_of wx hwx (fun a b => myCompareFunction a b 0)
      e.m_listBox.items (rowLine d.m_listBox.columns.length ("Apple" :: rest))
      (by rw [← he]; simp)
    refine ⟨x, hx, ?_⟩
    simp [keyText, hc, rowLine, List.getD, hn]
  · intro x y hx hy hsub
    have hp := hse.2.sublist hsub
    simp only [List.pairwise_cons, List.mem_singleton, forall_eq] at hp
    have hxy := hp.1
    rw [keyLe, hx, hy] at hxy
    revert hxy
    decide

/-- Witness for C4: the sample table, then a filter text change, an `InsertItems` and an
`Append`. -/
theorem sortList_orders_keys_witness :
    ∃ d0 d : EDA_LIST_DIALOG Nat,
      create wxReference ["Name", "Kind"] sampleTable "" none 0 false = .ok d0 ∧
      run wxReference [Op.typeFilter "a", Op.InsertItems [["item10", "part"]] 0,
        Op.Append ["item2", "part"]] d0 = .ok d ∧
      (∀ line ∈ d.m_listBox.items, 0 < d.m_listBox.columns.length →
        line.data = some (keyText line)) ∧
      ((sortList wxReference d).m_listBox.items.map wxListLine.unselect).Perm
        (d.m_listBox.items.map wxListLine.unselect) ∧
      (sortList wxReference d).m_listBox.items.Pairwise
        (fun a b => StrNumCmp (keyText a) (keyText b) ≤ 0) ∧
      StrNumCmp "item2" "item10" < 0 ∧ 0 < StrNumCmp "item10" "item2" ∧
      StrNumCmp "Apple" "banana" < 0 ∧ 0 < StrNumCmp "banana" "Apple" ∧
      (∀ rest e, EDA_LIST_DIALOG.Append d ("Apple" :: rest) = .ok e →
        (0 < d.m_listBox.columns.length →
          ∃ y ∈ (sortList wxReference e).m_listBox.items, keyText y = "Apple") ∧
        ∀ x y, keyText x = "banana" → keyText y = "Apple" →
          ¬ List.Sublist [x, y] (sortList wxReference e).m_listBox.items) :=
  ⟨_, _, rfl, rfl,
    sortList_orders_keys wxReference wxReference_contract ["Name", "Kind"] sampleTable "" none 0
      false [Op.typeFilter "a", Op.InsertItems [["item10", "part"]] 0,
        Op.Append ["item2", "part"]] _ _ rfl rfl⟩

/-- The order of lines whose keys compare equal is the toolkit's: `abc` and `ABC` compare
equal; with insertion sort as the toolkit's sort the two lines keep their order under one and
under two calls of `sortList`; with the reversing sort, which meets the same contract, one call
swaps them and a second call swaps them back. -/
theorem sortList_tie_order :
    SortItemsContract wxReference ∧ SortItemsContract wxReversing ∧
    StrNumCmp "abc" "ABC" = 0 ∧
    (sortList wxReference tieDialog).m_listBox.items.map keyText = ["abc", "ABC"] ∧
    (sortList wxReference (sortList wxReference tieDialog)).m_listBox.items.map keyText =
      ["abc", "ABC"] ∧
    (sortList wxReversing tieDialog).m_listBox.items.map keyText = ["ABC", "abc"] ∧
    (sortList wxReversing (sortList wxReversing tieDialog)).m_listBox.items.map keyText =
      ["abc", "ABC"] :=
  ⟨wxReference_contract, wxReversing_contract, by decide, by decide, by decide, by decide,
    by decide⟩

end Displlst
